import Mathlib

/-!
# zizou: scene conversion, scene switching and canvas painting

A shallow embedding of `apps/zizou/zizou.cpp`, together with theorems about it:
the scene converter `init_scene`, the brush `draw_brush`, and the two callbacks of
`run_view`; and of the iteration helper `range` of `libs/yocto/yocto_common.h`.

Conventions of the embedding.

* A C++ pointer is an `Option Nat`: `none` is `nullptr`.  A pointer into the
  authoring scene is the address of the object; the objects themselves live in a
  `sceneio_memory`.  A pointer into the render scene is the position of the
  object in the list that owns it: `add_camera` and its siblings append a new
  object to that list and return a pointer to it, and nothing is ever removed.
* `F` is the type of `float` values.  `init_scene` only copies such values.
  `draw_brush` computes with them; there `F` is an ordered field, so rounding is
  not part of the model.
* `int` values are unbounded integers (`Int`); the quantities involved (entity
  counts, pixel coordinates, a scene index below `SCENE_NUM`) stay far from the
  limits of a 32-bit `int`.
-/

namespace zizou

/-! ## Value types (declared in `yocto_math.h`, `yocto_image.h`) -/

/-- Pair of `int`. -/
structure vec2i where
  x : Int
  y : Int
deriving DecidableEq, Repr

/-- Triple of `int`. -/
structure vec3i where
  x : Int
  y : Int
  z : Int
deriving DecidableEq, Repr

/-- Quadruple of `int`. -/
structure vec4i where
  x : Int
  y : Int
  z : Int
  w : Int
deriving DecidableEq, Repr

/-- Quadruple of bytes. -/
structure vec4b where
  x : Nat
  y : Nat
  z : Nat
  w : Nat
deriving DecidableEq, Repr

/-- Pair of `float`. -/
structure vec2f (F : Type) where
  x : F
  y : F
deriving DecidableEq, Repr

/-- Triple of `float`. -/
structure vec3f (F : Type) where
  x : F
  y : F
  z : F
deriving DecidableEq, Repr

/-- Quadruple of `float`. -/
structure vec4f (F : Type) where
  x : F
  y : F
  z : F
  w : F
deriving DecidableEq, Repr

/-- Rigid frame: three axes and an origin. -/
structure frame3f (F : Type) where
  x : vec3f F
  y : vec3f F
  z : vec3f F
  o : vec3f F
deriving DecidableEq, Repr

/-- Modelled from the spec: `image<T>` of yocto_image, whose declaration is missing;
§3 has buffers of a given resolution with one value per pixel.  An image is its
size and the value stored at each coordinate; only the coordinates
`0 <= x < extent.x`, `0 <= y < extent.y` belong to the image, and a value stored
at another coordinate stands for memory outside the buffer. -/
structure image (α : Type) where
  extent : vec2i
  pixels : vec2i → α

/-- Width of an image, `image::width()`. -/
def image.width {α : Type} (img : image α) : Int := img.extent.x

/-- Height of an image, `image::height()`. -/
def image.height {α : Type} (img : image α) : Int := img.extent.y

/-- Whether a coordinate belongs to the image. -/
def image.contains {α : Type} (img : image α) (ij : vec2i) : Prop :=
  0 ≤ ij.x ∧ ij.x < img.width ∧ 0 ≤ ij.y ∧ ij.y < img.height

instance {α : Type} (img : image α) (ij : vec2i) : Decidable (img.contains ij) := by
  unfold image.contains; infer_instance

/-- Store `v` at coordinate `ij`: the assignment `img[ij] = v`. -/
def image.set {α : Type} (img : image α) (ij : vec2i) (v : α) : image α :=
  { img with pixels := fun p => if p = ij then v else img.pixels p }

/-! ## Authoring scene (`sceneio_*`, declared in `yocto_sceneio.h`)

The declarations are missing; each structure has the fields that `init_scene`
reads, with the types of their use. -/

/-- Authoring camera. -/
structure sceneio_camera (F : Type) where
  frame : frame3f F
  lens : F
  aspect : F
  film : F
  orthographic : Bool
  aperture : F
  focus : F

/-- Authoring texture. -/
structure sceneio_texture (F : Type) where
  hdr : image (vec4f F)
  ldr : image vec4b

/-- Authoring material; the `*_tex` fields point to authoring textures. -/
structure sceneio_material (F : Type) where
  emission : vec3f F
  color : vec3f F
  specular : F
  roughness : F
  metallic : F
  ior : F
  spectint : vec3f F
  coat : F
  transmission : F
  translucency : F
  scattering : vec3f F
  scanisotropy : F
  trdepth : F
  opacity : F
  thin : Bool
  emission_tex : Option Nat
  color_tex : Option Nat
  specular_tex : Option Nat
  metallic_tex : Option Nat
  roughness_tex : Option Nat
  transmission_tex : Option Nat
  translucency_tex : Option Nat
  spectint_tex : Option Nat
  scattering_tex : Option Nat
  coat_tex : Option Nat
  opacity_tex : Option Nat
  normal_tex : Option Nat

/-- Authoring shape; `displacement_tex` points to an authoring texture. -/
structure sceneio_shape (F : Type) where
  points : List Int
  lines : List vec2i
  triangles : List vec3i
  quads : List vec4i
  quadspos : List vec4i
  quadsnorm : List vec4i
  quadstexcoord : List vec4i
  positions : List (vec3f F)
  normals : List (vec3f F)
  texcoords : List (vec2f F)
  colors : List (vec4f F)
  radius : List F
  tangents : List (vec4f F)
  subdivisions : Int
  catmullclark : Bool
  smooth : Bool
  displacement : F
  displacement_tex : Option Nat

/-- Authoring instance; `shape` and `material` point to authoring entities. -/
structure sceneio_instance (F : Type) where
  frame : frame3f F
  shape : Option Nat
  material : Option Nat

/-- Authoring environment; `emission_tex` points to an authoring texture. -/
structure sceneio_environment (F : Type) where
  frame : frame3f F
  emission : vec3f F
  emission_tex : Option Nat

/-- Contents of the authoring objects, by address: what dereferencing a
`sceneio_camera*`, `sceneio_texture*`, ... yields. -/
structure sceneio_memory (F : Type) where
  cameras : Nat → sceneio_camera F
  textures : Nat → sceneio_texture F
  materials : Nat → sceneio_material F
  shapes : Nat → sceneio_shape F
  instances : Nat → sceneio_instance F
  environments : Nat → sceneio_environment F

/-- Authoring scene: for each kind, the pointers to the entities it holds, in
insertion order. -/
structure sceneio_scene where
  cameras : List Nat
  textures : List Nat
  materials : List Nat
  shapes : List Nat
  instances : List Nat
  environments : List Nat
deriving DecidableEq, Repr

/-! ## Render scene (`trace_*`, declared in `yocto_trace.h`)

The declarations are missing; each structure has the fields that `init_scene`
writes. -/

/-- Render camera. -/
structure trace_camera (F : Type) where
  frame : frame3f F
  lens : F
  aspect : F
  film : F
  orthographic : Bool
  aperture : F
  focus : F

/-- Render texture. -/
structure trace_texture (F : Type) where
  hdr : image (vec4f F)
  ldr : image vec4b

/-- Render material; the `*_tex` fields point to render textures. -/
structure trace_material (F : Type) where
  emission : vec3f F
  color : vec3f F
  specular : F
  roughness : F
  metallic : F
  ior : F
  spectint : vec3f F
  coat : F
  transmission : F
  translucency : F
  scattering : vec3f F
  scanisotropy : F
  trdepth : F
  opacity : F
  thin : Bool
  emission_tex : Option Nat
  color_tex : Option Nat
  specular_tex : Option Nat
  metallic_tex : Option Nat
  roughness_tex : Option Nat
  transmission_tex : Option Nat
  translucency_tex : Option Nat
  spectint_tex : Option Nat
  scattering_tex : Option Nat
  coat_tex : Option Nat
  opacity_tex : Option Nat
  normal_tex : Option Nat

/-- Render shape; `displacement_tex` points to a render texture. -/
structure trace_shape (F : Type) where
  points : List Int
  lines : List vec2i
  triangles : List vec3i
  quads : List vec4i
  quadspos : List vec4i
  quadsnorm : List vec4i
  quadstexcoord : List vec4i
  positions : List (vec3f F)
  normals : List (vec3f F)
  texcoords : List (vec2f F)
  colors : List (vec4f F)
  radius : List F
  tangents : List (vec4f F)
  subdivisions : Int
  catmullclark : Bool
  smooth : Bool
  displacement : F
  displacement_tex : Option Nat

/-- Render instance; `shape` and `material` point to render entities. -/
structure trace_instance (F : Type) where
  frame : frame3f F
  shape : Option Nat
  material : Option Nat

/-- Render environment; `emission_tex` points to a render texture. -/
structure trace_environment (F : Type) where
  frame : frame3f F
  emission : vec3f F
  emission_tex : Option Nat

/-- Render scene: owns its entities, one list per kind. -/
structure trace_scene (F : Type) where
  cameras : List (trace_camera F)
  textures : List (trace_texture F)
  materials : List (trace_material F)
  shapes : List (trace_shape F)
  instances : List (trace_instance F)
  environments : List (trace_environment F)

/-- Render scene without entities. -/
def trace_scene.empty (F : Type) : trace_scene F :=
  { cameras := [], textures := [], materials := [], shapes := [], instances := [],
    environments := [] }

/-! ## `init_scene` (zizou.cpp, lines 41-162) -/

/-- Table `unordered_map<sceneio_X*, trace_X*>`, most recent assignment first. -/
abbrev unordered_map := List (Option Nat × Option Nat)

/-- Assignment `m[k] = v`. -/
def unordered_map.assign (m : unordered_map) (k v : Option Nat) : unordered_map :=
  (k, v) :: m

/-- Lookup `m.at(k)`: the value last assigned to `k`; `none` stands for the
`std::out_of_range` exception thrown when `k` was never assigned. -/
def map_at : unordered_map → Option Nat → Option (Option Nat)
  | [], _ => none
  | (k', v) :: m, k => if k' = k then some v else map_at m k

/-- Progress callback `progress_cb(message, current, total)`, acting on the state
`σ` of whoever observes the progress. -/
abbrev progress_callback (σ : Type) := String → Int → Int → σ → σ

/-- The local `progress` counter pair of `init_scene`, with the state of the
observer of the callback. -/
structure progress_state (σ : Type) where
  progress : vec2i
  obs : σ

/-- The statement `if (progress_cb) progress_cb(message, progress.x++, progress.y);`. -/
def report {σ : Type} (progress_cb : Option (progress_callback σ)) (message : String)
    (p : progress_state σ) : progress_state σ :=
  match progress_cb with
  | none => p
  | some cb =>
    { progress := { x := p.progress.x + 1, y := p.progress.y },
      obs := cb message p.progress.x p.progress.y p.obs }

/-- Range-based `for` loop whose body may throw: the first throw ends the loop. -/
def for_each {α S ε : Type} (body : α → S → Except ε S) : List α → S → Except ε S
  | [], s => .ok s
  | a :: rest, s =>
    match body a s with
    | .ok s' => for_each body rest s'
    | .error e => .error e

/-- State threaded through one conversion loop: the render scene, the progress
counter with its observer, and the table the loop fills. -/
structure loop_state (F σ : Type) where
  scene : trace_scene F
  progress : progress_state σ
  map : unordered_map

/-! ### Allocation of render entities -/

/-- Modelled from the spec: `add_camera` of yocto_trace, whose code is missing; §4.1
has the converter allocate the render entity that corresponds to an authoring
entity, owned by the render scene.  The new camera is appended to the scene and a
pointer to it is returned; `value` is what the assignments that follow the call
in `init_scene` store in it. -/
def add_camera {F : Type} (scene : trace_scene F) (value : trace_camera F) :
    trace_scene F × Option Nat :=
  ({ scene with cameras := scene.cameras ++ [value] }, some scene.cameras.length)

/-- Modelled from the spec: `add_texture` of yocto_trace, whose code is missing; §4.1
has the converter allocate the render entity that corresponds to an authoring
entity, owned by the render scene.  The new texture is appended to the scene and a
pointer to it is returned; `value` is what the assignments that follow the call
in `init_scene` store in it. -/
def add_texture {F : Type} (scene : trace_scene F) (value : trace_texture F) :
    trace_scene F × Option Nat :=
  ({ scene with textures := scene.textures ++ [value] }, some scene.textures.length)

/-- Modelled from the spec: `add_material` of yocto_trace, whose code is missing; §4.1
has the converter allocate the render entity that corresponds to an authoring
entity, owned by the render scene.  The new material is appended to the scene and a
pointer to it is returned; `value` is what the assignments that follow the call
in `init_scene` store in it. -/
def add_material {F : Type} (scene : trace_scene F) (value : trace_material F) :
    trace_scene F × Option Nat :=
  ({ scene with materials := scene.materials ++ [value] }, some scene.materials.length)

/-- Modelled from the spec: `add_shape` of yocto_trace, whose code is missing; §4.1
has the converter allocate the render entity that corresponds to an authoring
entity, owned by the render scene.  The new shape is appended to the scene and a
pointer to it is returned; `value` is what the assignments that follow the call
in `init_scene` store in it. -/
def add_shape {F : Type} (scene : trace_scene F) (value : trace_shape F) :
    trace_scene F × Option Nat :=
  ({ scene with shapes := scene.shapes ++ [value] }, some scene.shapes.length)

/-- Modelled from the spec: `add_instance` of yocto_trace, whose code is missing; §4.1
has the converter allocate the render entity that corresponds to an authoring
entity, owned by the render scene.  The new instance is appended to the scene and a
pointer to it is returned; `value` is what the assignments that follow the call
in `init_scene` store in it. -/
def add_instance {F : Type} (scene : trace_scene F) (value : trace_instance F) :
    trace_scene F × Option Nat :=
  ({ scene with instances := scene.instances ++ [value] }, some scene.instances.length)

/-- Modelled from the spec: `add_environment` of yocto_trace, whose code is missing; §4.1
has the converter allocate the render entity that corresponds to an authoring
entity, owned by the render scene.  The new environment is appended to the scene and a
pointer to it is returned; `value` is what the assignments that follow the call
in `init_scene` store in it. -/
def add_environment {F : Type} (scene : trace_scene F) (value : trace_environment F) :
    trace_scene F × Option Nat :=
  ({ scene with environments := scene.environments ++ [value] }, some scene.environments.length)

/-- The render camera built from an authoring camera (lines 56-62). -/
def convert_camera {F : Type} (io : sceneio_camera F) : trace_camera F :=
  { frame := io.frame, lens := io.lens, aspect := io.aspect, film := io.film,
    orthographic := io.orthographic, aperture := io.aperture, focus := io.focus }

/-- Body of the camera loop (lines 53-63). -/
def camera_body {F σ : Type} (mem : sceneio_memory F)
    (progress_cb : Option (progress_callback σ)) (iocamera : Nat)
    (s : loop_state F σ) : loop_state F σ :=
  let progress := report progress_cb "converting cameras" s.progress
  let added := add_camera s.scene (convert_camera (mem.cameras iocamera))
  let camera := added.2
  { scene := added.1, progress := progress, map := s.map.assign (some iocamera) camera }

/-- The render texture built from an authoring texture (lines 72-73). -/
def convert_texture {F : Type} (io : sceneio_texture F) : trace_texture F :=
  { hdr := io.hdr, ldr := io.ldr }

/-- Body of the texture loop (lines 69-74). -/
def texture_body {F σ : Type} (mem : sceneio_memory F)
    (progress_cb : Option (progress_callback σ)) (iotexture : Nat)
    (s : loop_state F σ) : loop_state F σ :=
  let progress := report progress_cb "converting textures" s.progress
  let added := add_texture s.scene (convert_texture (mem.textures iotexture))
  let texture := added.2
  { scene := added.1, progress := progress, map := s.map.assign (some iotexture) texture }

/-- The render material built from an authoring material (lines 83-109); `none`
when one of the twelve `texture_map.at` lookups throws. -/
def convert_material {F : Type} (texture_map : unordered_map) (io : sceneio_material F) :
    Option (trace_material F) := do
  let emission_tex ← map_at texture_map io.emission_tex
  let color_tex ← map_at texture_map io.color_tex
  let specular_tex ← map_at texture_map io.specular_tex
  let metallic_tex ← map_at texture_map io.metallic_tex
  let roughness_tex ← map_at texture_map io.roughness_tex
  let transmission_tex ← map_at texture_map io.transmission_tex
  let translucency_tex ← map_at texture_map io.translucency_tex
  let spectint_tex ← map_at texture_map io.spectint_tex
  let scattering_tex ← map_at texture_map io.scattering_tex
  let coat_tex ← map_at texture_map io.coat_tex
  let opacity_tex ← map_at texture_map io.opacity_tex
  let normal_tex ← map_at texture_map io.normal_tex
  pure
    { emission := io.emission, color := io.color, specular := io.specular,
      roughness := io.roughness, metallic := io.metallic, ior := io.ior,
      spectint := io.spectint, coat := io.coat, transmission := io.transmission,
      translucency := io.translucency, scattering := io.scattering,
      scanisotropy := io.scanisotropy, trdepth := io.trdepth, opacity := io.opacity,
      thin := io.thin, emission_tex := emission_tex, color_tex := color_tex,
      specular_tex := specular_tex, metallic_tex := metallic_tex,
      roughness_tex := roughness_tex, transmission_tex := transmission_tex,
      translucency_tex := translucency_tex, spectint_tex := spectint_tex,
      scattering_tex := scattering_tex, coat_tex := coat_tex, opacity_tex := opacity_tex,
      normal_tex := normal_tex }

/-- Body of the material loop (lines 80-110).  A throw carries the state of the
progress observer at that moment; as the scene is not tracked past a throw, the
material is added once its lookups have succeeded. -/
def material_body {F σ : Type} (mem : sceneio_memory F)
    (progress_cb : Option (progress_callback σ)) (texture_map : unordered_map)
    (iomaterial : Nat) (s : loop_state F σ) : Except σ (loop_state F σ) :=
  let progress := report progress_cb "converting materials" s.progress
  match convert_material texture_map (mem.materials iomaterial) with
  | none => .error progress.obs
  | some value =>
    let added := add_material s.scene value
    let material := added.2
    .ok { scene := added.1, progress := progress,
          map := s.map.assign (some iomaterial) material }

/-- The render shape built from an authoring shape (lines 118-135); `none` when
the `texture_map.at` lookup throws. -/
def convert_shape {F : Type} (texture_map : unordered_map) (io : sceneio_shape F) :
    Option (trace_shape F) := do
  let displacement_tex ← map_at texture_map io.displacement_tex
  pure
    { points := io.points, lines := io.lines, triangles := io.triangles, quads := io.quads,
      quadspos := io.quadspos, quadsnorm := io.quadsnorm,
      quadstexcoord := io.quadstexcoord, positions := io.positions,
      normals := io.normals, texcoords := io.texcoords, colors := io.colors,
      radius := io.radius, tangents := io.tangents, subdivisions := io.subdivisions,
      catmullclark := io.catmullclark, smooth := io.smooth,
      displacement := io.displacement, displacement_tex := displacement_tex }

/-- Body of the shape loop (lines 116-136). -/
def shape_body {F σ : Type} (mem : sceneio_memory F)
    (progress_cb : Option (progress_callback σ)) (texture_map : unordered_map)
    (ioshape : Nat) (s : loop_state F σ) : Except σ (loop_state F σ) :=
  let progress := report progress_cb "converting shapes" s.progress
  match convert_shape texture_map (mem.shapes ioshape) with
  | none => .error progress.obs
  | some value =>
    let added := add_shape s.scene value
    let shape := added.2
    .ok { scene := added.1, progress := progress, map := s.map.assign (some ioshape) shape }

/-- The render instance built from an authoring instance (lines 143-145); `none`
when `shape_map.at` or `material_map.at` throws. -/
def convert_instance {F : Type} (shape_map material_map : unordered_map)
    (io : sceneio_instance F) : Option (trace_instance F) := do
  let shape ← map_at shape_map io.shape
  let material ← map_at material_map io.material
  pure { frame := io.frame, shape := shape, material := material }

/-- Body of the instance loop (lines 140-145); the loop fills no table. -/
def instance_body {F σ : Type} (mem : sceneio_memory F)
    (progress_cb : Option (progress_callback σ)) (shape_map material_map : unordered_map)
    (ioinstance : Nat) (s : loop_state F σ) : Except σ (loop_state F σ) :=
  let progress := report progress_cb "converting instances" s.progress
  match convert_instance shape_map material_map (mem.instances ioinstance) with
  | none => .error progress.obs
  | some value =>
    let added := add_instance s.scene value
    .ok { scene := added.1, progress := progress, map := s.map }

/-- The render environment built from an authoring environment (lines 152-154);
`none` when the `texture_map.at` lookup throws. -/
def convert_environment {F : Type} (texture_map : unordered_map)
    (io : sceneio_environment F) : Option (trace_environment F) := do
  let emission_tex ← map_at texture_map io.emission_tex
  pure { frame := io.frame, emission := io.emission, emission_tex := emission_tex }

/-- Body of the environment loop (lines 149-154); the loop fills no table. -/
def environment_body {F σ : Type} (mem : sceneio_memory F)
    (progress_cb : Option (progress_callback σ)) (texture_map : unordered_map)
    (ioenvironment : Nat) (s : loop_state F σ) : Except σ (loop_state F σ) :=
  let progress := report progress_cb "converting environments" s.progress
  match convert_environment texture_map (mem.environments ioenvironment) with
  | none => .error progress.obs
  | some value =>
    let added := add_environment s.scene value
    .ok { scene := added.1, progress := progress, map := s.map }

/-- How a call of `init_scene` ends.  `returned scene camera obs`: it returns, with
`*scene` and the `camera` out-parameter as given.  `threw obs`: a
`std::out_of_range` exception leaves the function; the partly converted `*scene`
is not tracked further.  `obs` is the state of the progress observer at that
moment. -/
inductive init_result (F σ : Type) where
  | returned (scene : trace_scene F) (camera : Option Nat) (obs : σ)
  | threw (obs : σ)

/-- The table a loop starts from: `X_map[nullptr] = nullptr`. -/
def null_map : unordered_map := unordered_map.assign [] none none

/-- Function `init_scene(scene, ioscene, camera, iocamera, progress_cb)`.  `scene` is
the render scene on entry, `obs` the state of the progress observer on entry.
The value of `camera` on entry is never read and is left out. -/
def init_scene {F σ : Type} (mem : sceneio_memory F) (scene : trace_scene F)
    (ioscene : sceneio_scene) (iocamera : Option Nat)
    (progress_cb : Option (progress_callback σ)) (obs : σ) : init_result F σ :=
  let progress : progress_state σ :=
    { progress :=
        { x := 0,
          y := (ioscene.cameras.length : Int) + (ioscene.environments.length : Int) +
               (ioscene.materials.length : Int) + (ioscene.textures.length : Int) +
               (ioscene.shapes.length : Int) + (ioscene.instances.length : Int) },
      obs := obs }
  let s1 := ioscene.cameras.foldl (fun s io => camera_body mem progress_cb io s)
    { scene := scene, progress := progress, map := null_map }
  let camera_map := s1.map
  let s2 := ioscene.textures.foldl (fun s io => texture_body mem progress_cb io s)
    { s1 with map := null_map }
  let texture_map := s2.map
  match for_each (material_body mem progress_cb texture_map) ioscene.materials
      { s2 with map := null_map } with
  | .error o => .threw o
  | .ok s3 =>
    let material_map := s3.map
    match for_each (shape_body mem progress_cb texture_map) ioscene.shapes
        { s3 with map := null_map } with
    | .error o => .threw o
    | .ok s4 =>
      let shape_map := s4.map
      match for_each (instance_body mem progress_cb shape_map material_map)
          ioscene.instances s4 with
      | .error o => .threw o
      | .ok s5 =>
        match for_each (environment_body mem progress_cb texture_map)
            ioscene.environments s5 with
        | .error o => .threw o
        | .ok s6 =>
          let done := report progress_cb "converting done" s6.progress
          match map_at camera_map iocamera with
          | none => .threw done.obs
          | some camera => .returned s6.scene camera done.obs

/-- Whether the call returned. -/
def init_result.completed {F σ : Type} : init_result F σ → Bool
  | .returned _ _ _ => true
  | .threw _ => false

/-- The state of the progress observer when the call ended. -/
def init_result.obs {F σ : Type} : init_result F σ → σ
  | .returned _ _ o => o
  | .threw o => o

/-! ### Closed forms used to describe the loops -/

/-- The table after a loop over `l` that starts with table `m` and with `n` render
entities of the kind already in the scene: the `k`-th pointer of `l` is assigned
the render entity at position `n + k`. -/
def extend_map (m : unordered_map) (n : Nat) : List Nat → unordered_map
  | [] => m
  | p :: l => extend_map (m.assign (some p) (some n)) (n + 1) l

/-- The progress state after reporting the given messages in turn. -/
def report_all {σ : Type} (progress_cb : Option (progress_callback σ)) :
    List String → progress_state σ → progress_state σ
  | [], p => p
  | m :: ms, p => report_all progress_cb ms (report progress_cb m p)

/-- The table `camera_map` once the camera loop has run. -/
def camera_table {F : Type} (scene : trace_scene F) (ioscene : sceneio_scene) : unordered_map :=
  extend_map null_map scene.cameras.length ioscene.cameras

/-- The table `texture_map` once the texture loop has run. -/
def texture_table {F : Type} (scene : trace_scene F) (ioscene : sceneio_scene) : unordered_map :=
  extend_map null_map scene.textures.length ioscene.textures

/-- The table `material_map` once the material loop has run. -/
def material_table {F : Type} (scene : trace_scene F) (ioscene : sceneio_scene) : unordered_map :=
  extend_map null_map scene.materials.length ioscene.materials

/-- The table `shape_map` once the shape loop has run. -/
def shape_table {F : Type} (scene : trace_scene F) (ioscene : sceneio_scene) : unordered_map :=
  extend_map null_map scene.shapes.length ioscene.shapes

/-- The render scene a complete conversion leaves behind. -/
def converted_scene {F : Type} (mem : sceneio_memory F) (scene : trace_scene F)
    (ioscene : sceneio_scene) : trace_scene F :=
  { cameras := scene.cameras ++ ioscene.cameras.map (fun p => convert_camera (mem.cameras p)),
    textures := scene.textures ++ ioscene.textures.map (fun p => convert_texture (mem.textures p)),
    materials := scene.materials ++ ioscene.materials.filterMap
      (fun p => convert_material (texture_table scene ioscene) (mem.materials p)),
    shapes := scene.shapes ++ ioscene.shapes.filterMap
      (fun p => convert_shape (texture_table scene ioscene) (mem.shapes p)),
    instances := scene.instances ++ ioscene.instances.filterMap
      (fun p => convert_instance (shape_table scene ioscene) (material_table scene ioscene)
        (mem.instances p)),
    environments := scene.environments ++ ioscene.environments.filterMap
      (fun p => convert_environment (texture_table scene ioscene) (mem.environments p)) }

/-- The messages a complete conversion reports, in order. -/
def progress_messages (ioscene : sceneio_scene) : List String :=
  List.replicate ioscene.cameras.length "converting cameras" ++
  List.replicate ioscene.textures.length "converting textures" ++
  List.replicate ioscene.materials.length "converting materials" ++
  List.replicate ioscene.shapes.length "converting shapes" ++
  List.replicate ioscene.instances.length "converting instances" ++
  List.replicate ioscene.environments.length "converting environments" ++
  ["converting done"]

/-- The value `progress.y` computed on entry (lines 45-48). -/
def progress_total (ioscene : sceneio_scene) : Int :=
  (ioscene.cameras.length : Int) + (ioscene.environments.length : Int) +
  (ioscene.materials.length : Int) + (ioscene.textures.length : Int) +
  (ioscene.shapes.length : Int) + (ioscene.instances.length : Int)

/-! ### Vocabulary of the statements about `init_scene` -/

/-- A pointer resolves in a list of entities: it is null or it is in the list. -/
def resolves (l : List Nat) (r : Option Nat) : Prop := ∀ p, r = some p → p ∈ l

/-- The twelve texture slots of an authoring material, in the order of lines 98-109. -/
def sceneio_material.slots {F : Type} (m : sceneio_material F) : List (Option Nat) :=
  [m.emission_tex, m.color_tex, m.specular_tex, m.metallic_tex, m.roughness_tex,
   m.transmission_tex, m.translucency_tex, m.spectint_tex, m.scattering_tex, m.coat_tex,
   m.opacity_tex, m.normal_tex]

/-- The twelve texture slots of a render material, in the same order. -/
def trace_material.slots {F : Type} (m : trace_material F) : List (Option Nat) :=
  [m.emission_tex, m.color_tex, m.specular_tex, m.metallic_tex, m.roughness_tex,
   m.transmission_tex, m.translucency_tex, m.spectint_tex, m.scattering_tex, m.coat_tex,
   m.opacity_tex, m.normal_tex]

/-- Every reference attribute of every entity of the scene resolves in the scene's
list of the kind it points to. -/
def sceneio_scene.resolved {F : Type} (mem : sceneio_memory F) (ioscene : sceneio_scene) :
    Prop :=
  (∀ p ∈ ioscene.materials, ∀ r ∈ (mem.materials p).slots, resolves ioscene.textures r) ∧
  (∀ p ∈ ioscene.shapes, resolves ioscene.textures (mem.shapes p).displacement_tex) ∧
  (∀ p ∈ ioscene.instances, resolves ioscene.shapes (mem.instances p).shape ∧
      resolves ioscene.materials (mem.instances p).material) ∧
  (∀ p ∈ ioscene.environments, resolves ioscene.textures (mem.environments p).emission_tex)

/-- Some non-null reference attribute of some entity of the scene points to an
entity that is not in the scene's list of that kind. -/
def sceneio_scene.dangling {F : Type} (mem : sceneio_memory F) (ioscene : sceneio_scene) :
    Prop :=
  (∃ p ∈ ioscene.materials, ∃ r ∈ (mem.materials p).slots, ∃ t, r = some t ∧
      t ∉ ioscene.textures) ∨
  (∃ p ∈ ioscene.shapes, ∃ t, (mem.shapes p).displacement_tex = some t ∧
      t ∉ ioscene.textures) ∨
  (∃ p ∈ ioscene.instances, ∃ t, (mem.instances p).shape = some t ∧ t ∉ ioscene.shapes) ∨
  (∃ p ∈ ioscene.instances, ∃ t, (mem.instances p).material = some t ∧
      t ∉ ioscene.materials) ∨
  (∃ p ∈ ioscene.environments, ∃ t, (mem.environments p).emission_tex = some t ∧
      t ∉ ioscene.textures)

/-- No pointer occurs twice in a list of the scene: every entity is an object of
its own. -/
def sceneio_scene.nodup (ioscene : sceneio_scene) : Prop :=
  ioscene.cameras.Nodup ∧ ioscene.textures.Nodup ∧ ioscene.materials.Nodup ∧
  ioscene.shapes.Nodup ∧ ioscene.instances.Nodup ∧ ioscene.environments.Nodup

/-- Every lookup of the four throwing loops succeeds. -/
def convertible {F : Type} (mem : sceneio_memory F) (scene : trace_scene F)
    (ioscene : sceneio_scene) : Prop :=
  (∀ p ∈ ioscene.materials,
    (convert_material (texture_table scene ioscene) (mem.materials p)).isSome) ∧
  (∀ p ∈ ioscene.shapes,
    (convert_shape (texture_table scene ioscene) (mem.shapes p)).isSome) ∧
  (∀ p ∈ ioscene.instances,
    (convert_instance (shape_table scene ioscene) (material_table scene ioscene)
      (mem.instances p)).isSome) ∧
  (∀ p ∈ ioscene.environments,
    (convert_environment (texture_table scene ioscene) (mem.environments p)).isSome)

/-- The progress state on entry of `init_scene`. -/
def progress_start {σ : Type} (ioscene : sceneio_scene) (obs : σ) : progress_state σ :=
  { progress := { x := 0, y := progress_total ioscene }, obs := obs }

/-- Render reference `r'` is the image of the authoring reference `r`, where `l` is
the scene's list of the kind pointed to and `n` the number of render entities of
that kind on entry (so that the render entity created for `l[j]` is the one at
position `n + j`): `r'` is null exactly when `r` is, and when `r` points to `l[j]`
then `r'` points to the render entity created for `l[j]`. -/
def translated (l : List Nat) (n : Nat) (r r' : Option Nat) : Prop :=
  (r = none ↔ r' = none) ∧ ∀ j p, l[j]? = some p → r = some p → r' = some (n + j)

/-- The attributes of a render camera equal those of an authoring camera. -/
def camera_copied {F : Type} (io : sceneio_camera F) (c : trace_camera F) : Prop :=
  c.frame = io.frame ∧ c.lens = io.lens ∧ c.aspect = io.aspect ∧ c.film = io.film ∧
  c.orthographic = io.orthographic ∧ c.aperture = io.aperture ∧ c.focus = io.focus

/-- The pixel arrays of a render texture equal those of an authoring texture. -/
def texture_copied {F : Type} (io : sceneio_texture F) (t : trace_texture F) : Prop :=
  t.hdr = io.hdr ∧ t.ldr = io.ldr

/-- The scalar attributes of a render material equal those of an authoring material. -/
def material_copied {F : Type} (io : sceneio_material F) (v : trace_material F) : Prop :=
  v.emission = io.emission ∧ v.color = io.color ∧ v.specular = io.specular ∧
  v.roughness = io.roughness ∧ v.metallic = io.metallic ∧ v.ior = io.ior ∧
  v.spectint = io.spectint ∧ v.coat = io.coat ∧ v.transmission = io.transmission ∧
  v.translucency = io.translucency ∧ v.scattering = io.scattering ∧
  v.scanisotropy = io.scanisotropy ∧ v.trdepth = io.trdepth ∧ v.opacity = io.opacity ∧
  v.thin = io.thin

/-- The scalar and array attributes of a render shape equal those of an authoring shape. -/
def shape_copied {F : Type} (io : sceneio_shape F) (v : trace_shape F) : Prop :=
  v.points = io.points ∧ v.lines = io.lines ∧ v.triangles = io.triangles ∧
  v.quads = io.quads ∧ v.quadspos = io.quadspos ∧ v.quadsnorm = io.quadsnorm ∧
  v.quadstexcoord = io.quadstexcoord ∧ v.positions = io.positions ∧
  v.normals = io.normals ∧ v.texcoords = io.texcoords ∧ v.colors = io.colors ∧
  v.radius = io.radius ∧ v.tangents = io.tangents ∧ v.subdivisions = io.subdivisions ∧
  v.catmullclark = io.catmullclark ∧ v.smooth = io.smooth ∧
  v.displacement = io.displacement

/-- The frame of a render instance equals that of an authoring instance. -/
def instance_copied {F : Type} (io : sceneio_instance F) (v : trace_instance F) : Prop :=
  v.frame = io.frame

/-- The frame and emission of a render environment equal those of an authoring one. -/
def environment_copied {F : Type} (io : sceneio_environment F) (v : trace_environment F) :
    Prop :=
  v.frame = io.frame ∧ v.emission = io.emission

/-! ### A concrete scene: two cameras, one texture, one material using the texture,
one shape, one instance of the shape with the material, no environment -/

/-- Frame whose coordinates are all zero. -/
def zero_frame : frame3f Int :=
  { x := ⟨0, 0, 0⟩, y := ⟨0, 0, 0⟩, z := ⟨0, 0, 0⟩, o := ⟨0, 0, 0⟩ }

/-- Empty image. -/
def zero_image (α : Type) (v : α) : image α := { extent := ⟨0, 0⟩, pixels := fun _ => v }

/-- Objects of the concrete scene.  Cameras live at addresses 10 and 11 and differ
in every scalar; the texture is at 20, the material at 30 (its colour texture is
the texture at 20), the shape at 40 and the instance at 50. -/
def scenario_memory : sceneio_memory Int :=
  { cameras := fun p =>
      { frame := zero_frame, lens := p, aspect := p + 1, film := p + 2,
        orthographic := decide (p = 11), aperture := p + 3, focus := p + 4 },
    textures := fun _ =>
      { hdr := zero_image (vec4f Int) ⟨0, 0, 0, 0⟩, ldr := zero_image vec4b ⟨0, 0, 0, 0⟩ },
    materials := fun _ =>
      { emission := ⟨0, 0, 0⟩, color := ⟨1, 1, 1⟩, specular := 0, roughness := 0,
        metallic := 0, ior := 1, spectint := ⟨1, 1, 1⟩, coat := 0, transmission := 0,
        translucency := 0, scattering := ⟨0, 0, 0⟩, scanisotropy := 0, trdepth := 1,
        opacity := 1, thin := true, emission_tex := none, color_tex := some 20,
        specular_tex := none, metallic_tex := none, roughness_tex := none,
        transmission_tex := none, translucency_tex := none, spectint_tex := none,
        scattering_tex := none, coat_tex := none, opacity_tex := none,
        normal_tex := none },
    shapes := fun _ =>
      { points := [], lines := [], triangles := [⟨0, 1, 2⟩], quads := [], quadspos := [],
        quadsnorm := [], quadstexcoord := [],
        positions := [⟨0, 0, 0⟩, ⟨1, 0, 0⟩, ⟨0, 1, 0⟩], normals := [], texcoords := [],
        colors := [], radius := [], tangents := [], subdivisions := 0,
        catmullclark := false, smooth := true, displacement := 0,
        displacement_tex := none },
    instances := fun _ => { frame := zero_frame, shape := some 40, material := some 30 },
    environments := fun _ =>
      { frame := zero_frame, emission := ⟨0, 0, 0⟩, emission_tex := none } }

/-- The concrete scene. -/
def scenario_scene : sceneio_scene :=
  { cameras := [10, 11], textures := [20], materials := [30], shapes := [40],
    instances := [50], environments := [] }

/-- The concrete scene without its texture: the colour texture of the material at
30 points to the texture at 20, which is no longer in the scene. -/
def scenario_scene_dangling : sceneio_scene :=
  { cameras := [10, 11], textures := [], materials := [30], shapes := [40],
    instances := [50], environments := [] }

/-- The concrete scene with the camera at address 10 held a second time, at the
end of the camera list. -/
def scenario_scene_repeated : sceneio_scene :=
  { cameras := [10, 11, 10], textures := [20], materials := [30], shapes := [40],
    instances := [50], environments := [] }

/-! ### Recording the progress callback -/

/-- One call `progress_cb(message, current, total)`. -/
structure progress_call where
  message : String
  current : Int
  total : Int
deriving DecidableEq, Repr

/-- The progress callback that records its calls, in call order. -/
def record : progress_callback (List progress_call) :=
  fun message current total log => log ++ [{ message := message, current := current, total := total }]

/-- The calls made when the messages `msgs` are reported in turn, starting with the
counter at `x`, with total `y`. -/
def calls_of : List String → Int → Int → List progress_call
  | [], _, _ => []
  | m :: ms, x, y => { message := m, current := x, total := y } :: calls_of ms (x + 1) y

/-! ## Session parameters and the render state -/

/-- The parameters `view_params` (lines 170-182).  Of the inherited `trace_params`
only the fields the application reads or writes are kept. -/
structure view_params where
  samples : Int
  resolution : Int
  pratio : Int
  output : String
  scenes : List String
  camera : String
  addsky : Bool
  savebatch : Bool
deriving DecidableEq, Repr

/-- The four pointers of one scene bundle: render scene, active camera,
accelerator, light set. -/
structure bundle where
  scene : Option Nat
  camera : Option Nat
  bvh : Option Nat
  lights : Option Nat
deriving DecidableEq, Repr

/-- Modelled from the spec: the states of the progressive render controller, kept
in `trace_state`; the declaration (yocto_trace.h) is missing.  §4.3: Idle (no
accumulation in progress) and Running (a worker accumulates samples for the bundle
and parameters given to `start`). -/
inductive controller where
  | idle
  | running (b : bundle) (params : view_params)
deriving DecidableEq, Repr

/-- The brush rectangle `state->brush`: origin `x`, `y` and size `w`, `h`. -/
structure brush where
  x : Int
  y : Int
  w : Int
  h : Int
deriving DecidableEq, Repr

/-- Modelled from the spec: the render state `trace_state`, whose declaration
(yocto_trace.h) is missing.  §3: an accumulation buffer (`render`), a separate
canvas buffer, per-pixel random-number-generator state `rngs`, brush parameters,
and the controller.  `R` is the type of the state of one generator.  An image
stores a pixel at every coordinate here, so the access `rngs[{1, 1}]` of
`draw_brush` has a value also when the image is smaller than 2x2. -/
structure trace_state (F R : Type) where
  render : image (vec4f F)
  canvas : image (vec4f F)
  rngs : image R
  brush : brush
  controller : controller

/-- Modelled from the spec: the invariant of `trace_state` that §3 states for the
canvas buffer, "same resolution" as the accumulation buffer. -/
def trace_state.same_resolution {F R : Type} (state : trace_state F R) : Prop :=
  state.canvas.extent = state.render.extent

/-! ## `draw_brush` (zizou.cpp, lines 211-236) -/

/-- Modelled from the spec: `distance` of yocto_math, whose code is missing; §4.4
speaks of the distance between the pixel and the brush centre.  The Euclidean
distance of two points: the square root `sqrt` of the sum of the squared
coordinate differences. -/
def distance {F : Type} [LinearOrderedField F] (sqrt : F → F) (a b : vec2f F) : F :=
  sqrt ((a.x - b.x) * (a.x - b.x) + (a.y - b.y) * (a.y - b.y))

/-- Modelled from the spec: `clamp` of yocto_math, whose code is missing; §4.4 has
the falloff clamped to `[0, 1]`.  The value brought into `[lo, hi]`. -/
def clamp {F : Type} [LinearOrderedField F] (a lo hi : F) : F := min (max a lo) hi

/-- The stroke colour `{1, 0, 0, 1}` (line 232). -/
def stroke {F : Type} [LinearOrderedField F] : vec4f F := ⟨1, 0, 0, 1⟩

/-- Modelled from the spec: `parallel_for(num1, num2, func)` of yocto_parallel, whose
code is missing; §4.4 has the operation run over the pixels of the brush
rectangle.  `func(i, j)` is called for every `0 <= i < num1`, `0 <= j < num2`.
The calls are run one after the other, row by row; in `draw_brush` the order only
decides which random value a pixel receives. -/
def parallel_for {S : Type} (num1 num2 : Int) (func : Int → Int → S → S) (s : S) : S :=
  (List.range num2.toNat).foldl
    (fun s (j : Nat) =>
      (List.range num1.toNat).foldl (fun s (i : Nat) => func (i : Int) (j : Int) s) s) s

/-- The local `dist` of the function object of `draw_brush` at cell `(i, j)`
(lines 213-228). -/
def brush_dist {F : Type} [LinearOrderedField F] (sqrt : F → F) (b : brush) (i j : Int) : F :=
  let _i := i + b.x
  let _j := j + b.y
  let a : vec2f F := ⟨((_i - Int.tdiv b.w 2 : Int) : F), ((_j - Int.tdiv b.h 2 : Int) : F)⟩
  let b' : vec2f F := ⟨(b.x : F), (b.y : F)⟩
  distance sqrt a b'

/-- The local `value` of the function object of `draw_brush` at cell `(i, j)`
(line 229). -/
def brush_value {F : Type} [LinearOrderedField F] (sqrt : F → F) (b : brush) (i j : Int) : F :=
  clamp (1 - brush_dist sqrt b i j / (b.w : F) * 2) 0 1

/-- The function object passed to `parallel_for` (lines 212-233), called at cell
`(i, j)`.  `rand1f` is the generator of yocto_math: from the state of a generator
it gives the value drawn and the state that follows. -/
def draw_brush_pixel {F R : Type} [LinearOrderedField F] (rand1f : R → F × R)
    (sqrt : F → F) (threshold : F) (i j : Int) (state : trace_state F R) :
    trace_state F R :=
  let _i := i + state.brush.x
  let _j := j + state.brush.y
  if _i < 0 ∨ _i > state.render.width - 1 ∨ _j < 0 ∨ _j > state.render.height - 1 then
    state
  else
    let _ij : vec2i := ⟨_i, _j⟩
    let drawn := rand1f (state.rngs.pixels ⟨1, 1⟩)
    let rnd := drawn.1
    let state := { state with rngs := state.rngs.set ⟨1, 1⟩ drawn.2 }
    let a : vec2f F :=
      ⟨((_i - Int.tdiv state.brush.w 2 : Int) : F), ((_j - Int.tdiv state.brush.h 2 : Int) : F)⟩
    let b : vec2f F := ⟨(state.brush.x : F), (state.brush.y : F)⟩
    let dist := distance sqrt a b
    let value := clamp (1 - dist / (state.brush.w : F) * 2) 0 1
    if value - rnd < threshold then state
    else { state with canvas := state.canvas.set _ij stroke }

/-- Function `draw_brush(state, viewer, threshold)`; the viewer is not used. -/
def draw_brush {F R : Type} [LinearOrderedField F] (rand1f : R → F × R) (sqrt : F → F)
    (state : trace_state F R) (threshold : F) : trace_state F R :=
  parallel_for state.brush.w state.brush.h (draw_brush_pixel rand1f sqrt threshold) state

/-- A pixel coordinate lies in the brush rectangle. -/
def brush.covers (b : brush) (p : vec2i) : Prop :=
  b.x ≤ p.x ∧ p.x < b.x + b.w ∧ b.y ≤ p.y ∧ p.y < b.y + b.h

/-- The centre pixel of the brush: origin plus the integer halves of the size. -/
def brush.center (b : brush) : vec2i := ⟨b.x + Int.tdiv b.w 2, b.y + Int.tdiv b.h 2⟩

/-! ### Concrete render states over the rationals -/

/-- Square root on the rationals, exact on the squares of rationals: the integer
square roots of numerator and denominator. -/
def sqrt_rat (q : ℚ) : ℚ := (Nat.sqrt q.num.toNat : ℚ) / (Nat.sqrt q.den : ℚ)

/-- A generator whose state counts the draws and which always draws `1/2`. -/
def half_rand1f (g : Nat) : ℚ × Nat := (1 / 2, g + 1)

/-- A black image of the given size. -/
def black_image (w h : Int) : image (vec4f ℚ) :=
  { extent := ⟨w, h⟩, pixels := fun _ => ⟨0, 0, 0, 0⟩ }

/-- Render state with 100x100 buffers and a 10x10 brush centred at pixel (50, 50). -/
def center_state : trace_state ℚ Nat :=
  { render := black_image 100 100, canvas := black_image 100 100,
    rngs := { extent := ⟨100, 100⟩, pixels := fun _ => 0 },
    brush := { x := 45, y := 45, w := 10, h := 10 }, controller := .idle }

/-- Render state with 100x100 buffers and a 10x10 brush that overlaps the top left
corner: its origin is (-5, -5). -/
def corner_state : trace_state ℚ Nat :=
  { render := black_image 100 100, canvas := black_image 100 100,
    rngs := { extent := ⟨100, 100⟩, pixels := fun _ => 0 },
    brush := { x := -5, y := -5, w := 10, h := 10 }, controller := .idle }

/-! ## The callbacks of `run_view` (zizou.cpp, lines 297-429) -/

/-- A call into the tracer (yocto_trace), with the four pointers and the parameters
handed over. -/
inductive tracer_call where
  | stop
  | start (b : bundle) (params : view_params)
  | step (b : bundle) (params : view_params)
  | image (b : bundle) (params : view_params)
deriving DecidableEq, Repr

/-- The functions of the yocto libraries that the application calls and whose code
is missing, as parameters: the generator `rand1f` and the square root of
yocto_math, and what `trace_start` and `trace_step` do to the buffers of a render
state. -/
structure library (F R : Type) where
  rand1f : R → F × R
  sqrt : F → F
  start_buffers : trace_state F R → bundle → view_params → trace_state F R
  step_buffers : trace_state F R → bundle → view_params → trace_state F R

/-- Modelled from the spec: `trace_stop` of yocto_trace, whose code is missing.
§4.3 `stop()`: no sampling work remains in flight when it returns, the controller
is Idle; the buffers are kept. -/
def trace_stop {F R : Type} (state : trace_state F R) : trace_state F R :=
  { state with controller := .idle }

/-- Modelled from the spec: `trace_step` of yocto_trace, whose code is missing.
§4.3 `step(...)`: one more sample pass on the buffers, nothing reset; the
controller is left as it is. -/
def trace_step {F R : Type} (lib : library F R) (state : trace_state F R) (b : bundle)
    (params : view_params) : trace_state F R :=
  { lib.step_buffers state b params with controller := state.controller }

/-- The input record `gui_input` of the viewer, reduced to the fields read. -/
structure gui_input (F : Type) where
  mouse_left : Bool
  mouse_right : Bool
  mouse_pos : vec2f F
  mouse_last : vec2f F
  window_size : vec2i

/-- The variables the callbacks of `run_view` share: the parameters, the index
`current_scene`, the four active pointers, the render state, and the calls made
into the tracer so far, in order. -/
structure view_state (F R : Type) where
  params : view_params
  current_scene : Int
  scene : Option Nat
  camera : Option Nat
  bvh : Option Nat
  lights : Option Nat
  state : trace_state F R
  calls : List tracer_call

/-- The four active pointers, as handed to a tracer call. -/
def view_state.active {F R : Type} (v : view_state F R) : bundle :=
  { scene := v.scene, camera := v.camera, bvh := v.bvh, lights := v.lights }

/-- Conversion `int(x)` of a `float`: truncation towards zero. -/
def to_int {F : Type} [LinearOrderedField F] [FloorRing F] (x : F) : Int :=
  if 0 ≤ x then Int.floor x else Int.ceil x

/-- The update callback (lines 335-396).  `uiparams` is `none` for a null JSON
value and otherwise the parameters read by `from_json`.  Calls into the viewer
(`set_params`) and `printf` leave the shared variables alone and are left out.
Division by a zero `pratio` is undefined in C++; here it gives 0. -/
def update_callback {F R : Type} [LinearOrderedField F] [FloorRing F] (lib : library F R)
    (name : String) (uiparams : Option view_params) (input : gui_input F)
    (v : view_state F R) : view_state F R :=
  if name ≠ "render" ∧ name ≠ "canvas" then v
  else
    match uiparams with
    | some ui =>
      let v := { v with state := trace_stop v.state, calls := v.calls ++ [tracer_call.stop] }
      let v := { v with params := ui }
      let pprms := v.params
      let pprms := { pprms with resolution := Int.tdiv pprms.resolution v.params.pratio }
      let pprms := { pprms with samples := 1 }
      { v with calls := v.calls ++ [tracer_call.image v.active pprms] }
    | none =>
      if (input.mouse_left ∨ input.mouse_right) ∧ input.mouse_pos ≠ input.mouse_last then
        let state := v.state
        let state := { state with brush := { state.brush with w := 400 } }
        let state := { state with brush := { state.brush with h := 400 } }
        let npos : vec2f F :=
          ⟨input.mouse_pos.x / (input.window_size.x : F),
           input.mouse_pos.y / (input.window_size.y : F)⟩
        let state := { state with brush := { state.brush with
          x := to_int (npos.x * (state.render.width : F) -
            ((Int.tdiv state.brush.w 2 : Int) : F)) } }
        let state := { state with brush := { state.brush with
          y := to_int (npos.y * (state.render.height : F) -
            ((Int.tdiv state.brush.h 2 : Int) : F)) } }
        let state := draw_brush lib.rand1f lib.sqrt state (1 / 2)
        { v with state := trace_step lib state v.active v.params,
                 calls := v.calls ++ [tracer_call.step v.active v.params] }
      else v

/-- The pointers handed to the `trace_start` calls of a list of calls, in order. -/
def started : List tracer_call → List bundle
  | [] => []
  | .start b _ :: cs => b :: started cs
  | _ :: cs => started cs

/-! ### What a caller of `init_scene` gets back -/

/-- The conversion result of a call: the render scene and the active camera when
the call returned, `none` when it threw.  The state of the progress observer is
not part of it. -/
def init_result.outcome {F σ : Type} : init_result F σ → Option (trace_scene F × Option Nat)
  | .returned scene camera _ => some (scene, camera)
  | .threw _ => none

/-! ## `range` (yocto_common.h, lines 88-113)

The template parameter `T` is an integer type; its values are unbounded integers
here, so `++index` never overflows. -/

/-- The local `struct iterator` of `range`: the current index. -/
structure range_iterator where
  index : Int
deriving DecidableEq, Repr

/-- Member `operator++`: `++index`. -/
def range_iterator.next (it : range_iterator) : range_iterator := { index := it.index + 1 }

/-- Member `operator!=`: `index != other.index`. -/
def range_iterator.ne (it other : range_iterator) : Bool := it.index != other.index

/-- Member `operator*`: the index. -/
def range_iterator.deref (it : range_iterator) : Int := it.index

/-- The local `struct range_helper` of `range`: the two bounds. -/
structure range_helper where
  begin_ : Int
  end_ : Int
deriving DecidableEq, Repr

/-- Member `begin()`. -/
def range_helper.begin_iterator (r : range_helper) : range_iterator := { index := r.begin_ }

/-- Member `end()`. -/
def range_helper.end_iterator (r : range_helper) : range_iterator := { index := r.end_ }

/-- Function `range(min, max, step)` (lines 97-113): it returns
`range_helper{min, max}`; `step` is not used. -/
def range (min max _step : Int) : range_helper := { begin_ := min, end_ := max }

/-- Function `range(max)` (lines 89-92). -/
def range_max (max : Int) : range_helper := range 0 max 1

/-- Function `range(min, max)` (lines 93-96). -/
def range_min_max (min max : Int) : range_helper := range min max 1

/-- The loop `for (; it != end; ++it) visit(*it)` that a range-based `for` runs, with
at most `fuel` passes through the body: the values visited, in order, or `none`
when the loop is still running after `fuel` passes. -/
def iterate : Nat → range_iterator → range_iterator → Option (List Int)
  | 0, it, last => if it.ne last then none else some []
  | fuel + 1, it, last =>
    if it.ne last then (iterate fuel it.next last).map (fun vs => it.deref :: vs)
    else some []

/-- The statement `for (auto v : r) visit(v)`: the values visited. -/
def for_range (fuel : Nat) (r : range_helper) : Option (List Int) :=
  iterate fuel r.begin_iterator r.end_iterator

/-- The values of Python's `range(min, max, step)` for `step > 0`, in the words of
the claim: `min`, `min + step`, `min + 2 * step`, ... while below `max`, and no
value at all when `min >= max`. -/
def python_range (min max step : Int) : List Int :=
  (List.range ((max - min + step - 1) / step).toNat).map (fun (k : Nat) => min + (k : Int) * step)

/-- A generator whose state counts the draws and whose value drawn is the last
decimal digit of the state, in tenths: a value in `[0, 1)` that tells the streams
of two pixels apart. -/
def digit_rand1f (g : Nat) : ℚ × Nat := (((g % 10 : Nat) : ℚ) / 10, g + 1)

/-- Render state with 100x100 buffers and a 10x10 brush centred at pixel (50, 50),
in which the generator of pixel (1, 1) is in state 9 and the generator of every
other pixel is in state 0. -/
def marked_state : trace_state ℚ Nat :=
  { render := black_image 100 100, canvas := black_image 100 100,
    rngs := { extent := ⟨100, 100⟩, pixels := fun p => if p = ⟨1, 1⟩ then 9 else 0 },
    brush := { x := 45, y := 45, w := 10, h := 10 }, controller := .idle }

/-! ## Theorems -/

/-! ### Tables -/

theorem map_at_extend_none (m : unordered_map) (n : Nat) (l : List Nat) :
    map_at (extend_map m n l) none = map_at m none := by
  induction l generalizing m n with
  | nil => rfl
  | cons p l ih => simp [extend_map, ih, unordered_map.assign, map_at]

theorem map_at_extend_not_mem (m : unordered_map) (n : Nat) (l : List Nat) (p : Nat)
    (hp : p ∉ l) : map_at (extend_map m n l) (some p) = map_at m (some p) := by
  induction l generalizing m n with
  | nil => rfl
  | cons q l ih =>
    simp only [List.mem_cons, not_or] at hp
    have hq : q ≠ p := fun h => hp.1 h.symm
    simp [extend_map, ih _ _ hp.2, unordered_map.assign, map_at, hq]

theorem map_at_extend_nodup (m : unordered_map) (n : Nat) (l : List Nat) (hl : l.Nodup)
    (k p : Nat) (hk : l[k]? = some p) :
    map_at (extend_map m n l) (some p) = some (some (n + k)) := by
  induction l generalizing m n k with
  | nil => simp at hk
  | cons q l ih =>
    rw [List.nodup_cons] at hl
    cases k with
    | zero =>
      simp at hk
      subst hk
      simp [extend_map, map_at_extend_not_mem _ _ _ _ hl.1, unordered_map.assign, map_at]
    | succ k =>
      simp at hk
      rw [extend_map, ih _ _ hl.2 k hk]
      congr 2; omega

theorem map_at_extend_mem (m : unordered_map) (n : Nat) (l : List Nat) (p : Nat)
    (hp : p ∈ l) :
    ∃ j, l[j]? = some p ∧ map_at (extend_map m n l) (some p) = some (some (n + j)) := by
  induction l generalizing m n with
  | nil => simp at hp
  | cons q l ih =>
    by_cases hmem : p ∈ l
    · obtain ⟨j, hj, hmap⟩ := ih (m.assign (some q) (some n)) (n + 1) hmem
      refine ⟨j + 1, by simpa using hj, ?_⟩
      rw [extend_map, hmap]
      congr 2; omega
    · have hq : p = q := by
        rcases List.mem_cons.mp hp with h | h
        · exact h
        · exact absurd h hmem
      subst hq
      refine ⟨0, by simp, ?_⟩
      simp [extend_map, map_at_extend_not_mem _ _ _ _ hmem, unordered_map.assign, map_at]

/-- The table keeps the last assignment: a pointer of the list is mapped to the
render entity created for its last occurrence. -/
theorem map_at_extend_last (m : unordered_map) (n : Nat) (l : List Nat) (p : Nat)
    (hp : p ∈ l) :
    ∃ j, l[j]? = some p ∧ (∀ j', j < j' → l[j']? ≠ some p) ∧
      map_at (extend_map m n l) (some p) = some (some (n + j)) := by
  induction l generalizing m n with
  | nil => simp at hp
  | cons q l ih =>
    by_cases hmem : p ∈ l
    · obtain ⟨j, hj, hlast, hmap⟩ := ih (m.assign (some q) (some n)) (n + 1) hmem
      refine ⟨j + 1, by simpa using hj, ?_, ?_⟩
      · intro j' hj'
        cases j' with
        | zero => omega
        | succ j'' =>
          simp only [List.getElem?_cons_succ]
          exact hlast j'' (by omega)
      · rw [extend_map, hmap]
        congr 2; omega
    · have hq : p = q := by
        rcases List.mem_cons.mp hp with h | h
        · exact h
        · exact absurd h hmem
      subst hq
      refine ⟨0, by simp, ?_, ?_⟩
      · intro j' hj'
        cases j' with
        | zero => omega
        | succ j'' =>
          simp only [List.getElem?_cons_succ]
          intro h
          exact hmem (List.getElem?_mem h)
      · simp [extend_map, map_at_extend_not_mem _ _ _ _ hmem, unordered_map.assign, map_at]

theorem map_at_null_none : map_at null_map none = some none := by
  simp [null_map, unordered_map.assign, map_at]

theorem map_at_null_some (p : Nat) : map_at null_map (some p) = none := by
  simp [null_map, unordered_map.assign, map_at]

/-- A pointer resolves in the table of a list exactly when it is null or in the list. -/
theorem map_at_table_isSome (n : Nat) (l : List Nat) (r : Option Nat) :
    (map_at (extend_map null_map n l) r).isSome ↔ ∀ p, r = some p → p ∈ l := by
  cases r with
  | none => simp [map_at_extend_none, map_at_null_none]
  | some p =>
    by_cases hp : p ∈ l
    · obtain ⟨j, _, hmap⟩ := map_at_extend_mem null_map n l p hp
      simp [hmap, hp]
    · simp [map_at_extend_not_mem _ _ _ _ hp, map_at_null_some, hp]

/-! ### Loops -/

theorem report_all_append {σ : Type} (cb : Option (progress_callback σ)) (ms ns : List String)
    (p : progress_state σ) :
    report_all cb (ms ++ ns) p = report_all cb ns (report_all cb ms p) := by
  induction ms generalizing p with
  | nil => rfl
  | cons m ms ih => simp [report_all, ih]

theorem report_all_replicate_succ {σ : Type} (cb : Option (progress_callback σ)) (n : Nat)
    (msg : String) (p : progress_state σ) :
    report_all cb (List.replicate (n + 1) msg) p =
      report_all cb (List.replicate n msg) (report cb msg p) := by
  simp [List.replicate_succ, report_all]

theorem camera_loop {F σ : Type} (mem : sceneio_memory F) (cb : Option (progress_callback σ))
    (l : List Nat) (s : loop_state F σ) :
    l.foldl (fun s io => camera_body mem cb io s) s =
      { scene := { s.scene with
          cameras := s.scene.cameras ++ l.map (fun p => convert_camera (mem.cameras p)) },
        progress := report_all cb (List.replicate l.length "converting cameras") s.progress,
        map := extend_map s.map s.scene.cameras.length l } := by
  induction l generalizing s with
  | nil => simp [report_all, extend_map]
  | cons p l ih =>
    rw [List.foldl_cons, ih]
    simp [camera_body, add_camera, report_all_replicate_succ, extend_map]

theorem texture_loop {F σ : Type} (mem : sceneio_memory F) (cb : Option (progress_callback σ))
    (l : List Nat) (s : loop_state F σ) :
    l.foldl (fun s io => texture_body mem cb io s) s =
      { scene := { s.scene with
          textures := s.scene.textures ++ l.map (fun p => convert_texture (mem.textures p)) },
        progress := report_all cb (List.replicate l.length "converting textures") s.progress,
        map := extend_map s.map s.scene.textures.length l } := by
  induction l generalizing s with
  | nil => simp [report_all, extend_map]
  | cons p l ih =>
    rw [List.foldl_cons, ih]
    simp [texture_body, add_texture, report_all_replicate_succ, extend_map]

theorem material_loop_ok {F σ : Type} (mem : sceneio_memory F)
    (cb : Option (progress_callback σ)) (tm : unordered_map) (l : List Nat)
    (s : loop_state F σ)
    (h : ∀ p ∈ l, (convert_material tm (mem.materials p)).isSome) :
    for_each (material_body mem cb tm) l s = .ok
      { scene := { s.scene with
          materials := s.scene.materials ++
            l.filterMap (fun p => convert_material tm (mem.materials p)) },
        progress := report_all cb (List.replicate l.length "converting materials") s.progress,
        map := extend_map s.map s.scene.materials.length l } := by
  induction l generalizing s with
  | nil => simp [for_each, report_all, extend_map]
  | cons p l ih =>
    obtain ⟨v, hv⟩ := Option.isSome_iff_exists.mp (h p (List.mem_cons_self _ _))
    have hl : ∀ q ∈ l, (convert_material tm (mem.materials q)).isSome :=
      fun q hq => h q (List.mem_cons_of_mem _ hq)
    simp [for_each, material_body, add_material, hv, ih _ hl, report_all_replicate_succ, extend_map,
      List.filterMap_cons]

theorem shape_loop_ok {F σ : Type} (mem : sceneio_memory F)
    (cb : Option (progress_callback σ)) (tm : unordered_map) (l : List Nat)
    (s : loop_state F σ)
    (h : ∀ p ∈ l, (convert_shape tm (mem.shapes p)).isSome) :
    for_each (shape_body mem cb tm) l s = .ok
      { scene := { s.scene with
          shapes := s.scene.shapes ++ l.filterMap (fun p => convert_shape tm (mem.shapes p)) },
        progress := report_all cb (List.replicate l.length "converting shapes") s.progress,
        map := extend_map s.map s.scene.shapes.length l } := by
  induction l generalizing s with
  | nil => simp [for_each, report_all, extend_map]
  | cons p l ih =>
    obtain ⟨v, hv⟩ := Option.isSome_iff_exists.mp (h p (List.mem_cons_self _ _))
    have hl : ∀ q ∈ l, (convert_shape tm (mem.shapes q)).isSome :=
      fun q hq => h q (List.mem_cons_of_mem _ hq)
    simp [for_each, shape_body, add_shape, hv, ih _ hl, report_all_replicate_succ, extend_map,
      List.filterMap_cons]

theorem instance_loop_ok {F σ : Type} (mem : sceneio_memory F)
    (cb : Option (progress_callback σ)) (sm mm : unordered_map) (l : List Nat)
    (s : loop_state F σ)
    (h : ∀ p ∈ l, (convert_instance sm mm (mem.instances p)).isSome) :
    for_each (instance_body mem cb sm mm) l s = .ok
      { scene := { s.scene with
          instances := s.scene.instances ++
            l.filterMap (fun p => convert_instance sm mm (mem.instances p)) },
        progress := report_all cb (List.replicate l.length "converting instances") s.progress,
        map := s.map } := by
  induction l generalizing s with
  | nil => simp [for_each, report_all]
  | cons p l ih =>
    obtain ⟨v, hv⟩ := Option.isSome_iff_exists.mp (h p (List.mem_cons_self _ _))
    have hl : ∀ q ∈ l, (convert_instance sm mm (mem.instances q)).isSome :=
      fun q hq => h q (List.mem_cons_of_mem _ hq)
    simp [for_each, instance_body, add_instance, hv, ih _ hl, report_all_replicate_succ,
      List.filterMap_cons]

theorem environment_loop_ok {F σ : Type} (mem : sceneio_memory F)
    (cb : Option (progress_callback σ)) (tm : unordered_map) (l : List Nat)
    (s : loop_state F σ)
    (h : ∀ p ∈ l, (convert_environment tm (mem.environments p)).isSome) :
    for_each (environment_body mem cb tm) l s = .ok
      { scene := { s.scene with
          environments := s.scene.environments ++
            l.filterMap (fun p => convert_environment tm (mem.environments p)) },
        progress :=
          report_all cb (List.replicate l.length "converting environments") s.progress,
        map := s.map } := by
  induction l generalizing s with
  | nil => simp [for_each, report_all]
  | cons p l ih =>
    obtain ⟨v, hv⟩ := Option.isSome_iff_exists.mp (h p (List.mem_cons_self _ _))
    have hl : ∀ q ∈ l, (convert_environment tm (mem.environments q)).isSome :=
      fun q hq => h q (List.mem_cons_of_mem _ hq)
    simp [for_each, environment_body, add_environment, hv, ih _ hl, report_all_replicate_succ,
      List.filterMap_cons]

/-- A loop whose body first reports and then either throws or goes on: when some
element makes the body throw, the loop throws after at most as many reports as it
has elements. -/
theorem for_each_throws {α S P ε : Type} (body : α → S → Except ε S) (g : α → Bool)
    (prog : S → P) (next : P → P) (err : P → ε)
    (hok : ∀ a s, g a = true → ∃ s', body a s = .ok s' ∧ prog s' = next (prog s))
    (herr : ∀ a s, g a = false → body a s = .error (err (next (prog s))))
    (l : List α) (s : S) (h : ∃ a ∈ l, g a = false) :
    ∃ k, k < l.length ∧ for_each body l s = .error (err (next^[k + 1] (prog s))) := by
  induction l generalizing s with
  | nil => simp at h
  | cons a l ih =>
    cases hg : g a with
    | false =>
      refine ⟨0, by simp, ?_⟩
      simp [for_each, herr a s hg]
    | true =>
      obtain ⟨s', hs', hp⟩ := hok a s hg
      have h' : ∃ b ∈ l, g b = false := by
        obtain ⟨b, hb, hgb⟩ := h
        rcases List.mem_cons.mp hb with rfl | hb
        · rw [hg] at hgb; cases hgb
        · exact ⟨b, hb, hgb⟩
      obtain ⟨k, hk, hres⟩ := ih s' h'
      refine ⟨k + 1, by simpa using hk, ?_⟩
      simp only [for_each, hs', hres, hp]
      rw [Function.iterate_succ_apply (f := next) (n := k + 1)]

theorem report_iterate {σ : Type} (cb : Option (progress_callback σ)) (msg : String) (n : Nat)
    (p : progress_state σ) :
    (report cb msg)^[n] p = report_all cb (List.replicate n msg) p := by
  induction n generalizing p with
  | zero => rfl
  | succ n ih => rw [Function.iterate_succ_apply, ih, report_all_replicate_succ]

theorem material_loop_throws {F σ : Type} (mem : sceneio_memory F)
    (cb : Option (progress_callback σ)) (tm : unordered_map) (l : List Nat)
    (s : loop_state F σ)
    (h : ¬ ∀ p ∈ l, (convert_material tm (mem.materials p)).isSome) :
    ∃ k, k < l.length ∧ for_each (material_body mem cb tm) l s =
      .error (report_all cb (List.replicate (k + 1) "converting materials") s.progress).obs := by
  have h' : ∃ p ∈ l, (convert_material tm (mem.materials p)).isSome = false := by
    push_neg at h; simpa using h
  obtain ⟨k, hk, hres⟩ := for_each_throws (material_body mem cb tm)
    (fun p => (convert_material tm (mem.materials p)).isSome) (fun s => s.progress)
    (report cb "converting materials") (fun p => p.obs)
    (fun a s ha => by
      obtain ⟨v, hv⟩ := Option.isSome_iff_exists.mp ha
      simp [material_body, add_material, hv])
    (fun a s ha => by
      have hv : convert_material tm (mem.materials a) = none := by simpa using ha
      simp [material_body, add_material, hv]) l s h'
  exact ⟨k, hk, by rw [hres, report_iterate]⟩

theorem shape_loop_throws {F σ : Type} (mem : sceneio_memory F)
    (cb : Option (progress_callback σ)) (tm : unordered_map) (l : List Nat)
    (s : loop_state F σ)
    (h : ¬ ∀ p ∈ l, (convert_shape tm (mem.shapes p)).isSome) :
    ∃ k, k < l.length ∧ for_each (shape_body mem cb tm) l s =
      .error (report_all cb (List.replicate (k + 1) "converting shapes") s.progress).obs := by
  have h' : ∃ p ∈ l, (convert_shape tm (mem.shapes p)).isSome = false := by
    push_neg at h; simpa using h
  obtain ⟨k, hk, hres⟩ := for_each_throws (shape_body mem cb tm)
    (fun p => (convert_shape tm (mem.shapes p)).isSome) (fun s => s.progress)
    (report cb "converting shapes") (fun p => p.obs)
    (fun a s ha => by
      obtain ⟨v, hv⟩ := Option.isSome_iff_exists.mp ha
      simp [shape_body, add_shape, hv])
    (fun a s ha => by
      have hv : convert_shape tm (mem.shapes a) = none := by simpa using ha
      simp [shape_body, add_shape, hv]) l s h'
  exact ⟨k, hk, by rw [hres, report_iterate]⟩

theorem instance_loop_throws {F σ : Type} (mem : sceneio_memory F)
    (cb : Option (progress_callback σ)) (sm mm : unordered_map) (l : List Nat)
    (s : loop_state F σ)
    (h : ¬ ∀ p ∈ l, (convert_instance sm mm (mem.instances p)).isSome) :
    ∃ k, k < l.length ∧ for_each (instance_body mem cb sm mm) l s =
      .error (report_all cb (List.replicate (k + 1) "converting instances") s.progress).obs := by
  have h' : ∃ p ∈ l, (convert_instance sm mm (mem.instances p)).isSome = false := by
    push_neg at h; simpa using h
  obtain ⟨k, hk, hres⟩ := for_each_throws (instance_body mem cb sm mm)
    (fun p => (convert_instance sm mm (mem.instances p)).isSome) (fun s => s.progress)
    (report cb "converting instances") (fun p => p.obs)
    (fun a s ha => by
      obtain ⟨v, hv⟩ := Option.isSome_iff_exists.mp ha
      simp [instance_body, add_instance, hv])
    (fun a s ha => by
      have hv : convert_instance sm mm (mem.instances a) = none := by simpa using ha
      simp [instance_body, add_instance, hv]) l s h'
  exact ⟨k, hk, by rw [hres, report_iterate]⟩

theorem environment_loop_throws {F σ : Type} (mem : sceneio_memory F)
    (cb : Option (progress_callback σ)) (tm : unordered_map) (l : List Nat)
    (s : loop_state F σ)
    (h : ¬ ∀ p ∈ l, (convert_environment tm (mem.environments p)).isSome) :
    ∃ k, k < l.length ∧ for_each (environment_body mem cb tm) l s =
      .error
        (report_all cb (List.replicate (k + 1) "converting environments") s.progress).obs := by
  have h' : ∃ p ∈ l, (convert_environment tm (mem.environments p)).isSome = false := by
    push_neg at h; simpa using h
  obtain ⟨k, hk, hres⟩ := for_each_throws (environment_body mem cb tm)
    (fun p => (convert_environment tm (mem.environments p)).isSome) (fun s => s.progress)
    (report cb "converting environments") (fun p => p.obs)
    (fun a s ha => by
      obtain ⟨v, hv⟩ := Option.isSome_iff_exists.mp ha
      simp [environment_body, add_environment, hv])
    (fun a s ha => by
      have hv : convert_environment tm (mem.environments a) = none := by simpa using ha
      simp [environment_body, add_environment, hv]) l s h'
  exact ⟨k, hk, by rw [hres, report_iterate]⟩

/-! ### The two ways `init_scene` ends -/

theorem init_scene_returns {F σ : Type} (mem : sceneio_memory F) (scene : trace_scene F)
    (ioscene : sceneio_scene) (iocamera : Option Nat) (cb : Option (progress_callback σ))
    (obs : σ) (hconv : convertible mem scene ioscene) (c : Option Nat)
    (hc : map_at (camera_table scene ioscene) iocamera = some c) :
    init_scene mem scene ioscene iocamera cb obs =
      .returned (converted_scene mem scene ioscene) c
        (report_all cb (progress_messages ioscene) (progress_start ioscene obs)).obs := by
  obtain ⟨hm, hs, hi, he⟩ := hconv
  unfold camera_table at hc
  unfold texture_table at hm hs he
  unfold shape_table material_table at hi
  unfold init_scene
  simp only [camera_loop, texture_loop]
  rw [material_loop_ok mem cb _ _ _ hm]
  simp only []
  rw [shape_loop_ok mem cb _ _ _ hs]
  simp only []
  rw [instance_loop_ok mem cb _ _ _ _ hi]
  simp only []
  rw [environment_loop_ok mem cb _ _ _ he]
  simp only [hc]
  simp [converted_scene, progress_messages, progress_start, progress_total, report_all_append,
    report_all, texture_table, shape_table, material_table]

theorem replicate_prefix_append (k n : Nat) (hk : k < n) (m : String) (pre rest : List String) :
    pre ++ List.replicate (k + 1) m <+: pre ++ (List.replicate n m ++ rest) := by
  refine ⟨List.replicate (n - (k + 1)) m ++ rest, ?_⟩
  have hn : List.replicate n m =
      List.replicate (k + 1) m ++ List.replicate (n - (k + 1)) m := by
    rw [← List.replicate_add]; congr 1; omega
  rw [hn]
  simp only [List.append_assoc]

theorem material_loop_error_inv {F σ : Type} (mem : sceneio_memory F)
    (cb : Option (progress_callback σ)) (tm : unordered_map) (l : List Nat)
    (s : loop_state F σ) (o : σ) (h : for_each (material_body mem cb tm) l s = .error o) :
    ∃ k, k < l.length ∧
      o = (report_all cb (List.replicate (k + 1) "converting materials") s.progress).obs := by
  by_cases hall : ∀ p ∈ l, (convert_material tm (mem.materials p)).isSome
  · rw [material_loop_ok mem cb _ l s hall] at h
    cases h
  · obtain ⟨k, hk, hres⟩ := material_loop_throws mem cb _ l s hall
    rw [hres] at h
    exact ⟨k, hk, by injection h with h; exact h.symm⟩

theorem material_loop_ok_inv {F σ : Type} (mem : sceneio_memory F)
    (cb : Option (progress_callback σ)) (tm : unordered_map) (l : List Nat)
    (s s' : loop_state F σ) (h : for_each (material_body mem cb tm) l s = .ok s') :
    ∀ p ∈ l, (convert_material tm (mem.materials p)).isSome := by
  by_contra hall
  obtain ⟨k, _, hres⟩ := material_loop_throws mem cb _ l s hall
  rw [hres] at h
  cases h

theorem shape_loop_error_inv {F σ : Type} (mem : sceneio_memory F)
    (cb : Option (progress_callback σ)) (tm : unordered_map) (l : List Nat)
    (s : loop_state F σ) (o : σ) (h : for_each (shape_body mem cb tm) l s = .error o) :
    ∃ k, k < l.length ∧
      o = (report_all cb (List.replicate (k + 1) "converting shapes") s.progress).obs := by
  by_cases hall : ∀ p ∈ l, (convert_shape tm (mem.shapes p)).isSome
  · rw [shape_loop_ok mem cb _ l s hall] at h
    cases h
  · obtain ⟨k, hk, hres⟩ := shape_loop_throws mem cb _ l s hall
    rw [hres] at h
    exact ⟨k, hk, by injection h with h; exact h.symm⟩

theorem shape_loop_ok_inv {F σ : Type} (mem : sceneio_memory F)
    (cb : Option (progress_callback σ)) (tm : unordered_map) (l : List Nat)
    (s s' : loop_state F σ) (h : for_each (shape_body mem cb tm) l s = .ok s') :
    ∀ p ∈ l, (convert_shape tm (mem.shapes p)).isSome := by
  by_contra hall
  obtain ⟨k, _, hres⟩ := shape_loop_throws mem cb _ l s hall
  rw [hres] at h
  cases h

theorem instance_loop_error_inv {F σ : Type} (mem : sceneio_memory F)
    (cb : Option (progress_callback σ)) (sm mm : unordered_map) (l : List Nat)
    (s : loop_state F σ) (o : σ) (h : for_each (instance_body mem cb sm mm) l s = .error o) :
    ∃ k, k < l.length ∧
      o = (report_all cb (List.replicate (k + 1) "converting instances") s.progress).obs := by
  by_cases hall : ∀ p ∈ l, (convert_instance sm mm (mem.instances p)).isSome
  · rw [instance_loop_ok mem cb _ _ l s hall] at h
    cases h
  · obtain ⟨k, hk, hres⟩ := instance_loop_throws mem cb _ _ l s hall
    rw [hres] at h
    exact ⟨k, hk, by injection h with h; exact h.symm⟩

theorem instance_loop_ok_inv {F σ : Type} (mem : sceneio_memory F)
    (cb : Option (progress_callback σ)) (sm mm : unordered_map) (l : List Nat)
    (s s' : loop_state F σ) (h : for_each (instance_body mem cb sm mm) l s = .ok s') :
    ∀ p ∈ l, (convert_instance sm mm (mem.instances p)).isSome := by
  by_contra hall
  obtain ⟨k, _, hres⟩ := instance_loop_throws mem cb _ _ l s hall
  rw [hres] at h
  cases h

theorem environment_loop_error_inv {F σ : Type} (mem : sceneio_memory F)
    (cb : Option (progress_callback σ)) (tm : unordered_map) (l : List Nat)
    (s : loop_state F σ) (o : σ) (h : for_each (environment_body mem cb tm) l s = .error o) :
    ∃ k, k < l.length ∧
      o = (report_all cb (List.replicate (k + 1) "converting environments") s.progress).obs := by
  by_cases hall : ∀ p ∈ l, (convert_environment tm (mem.environments p)).isSome
  · rw [environment_loop_ok mem cb _ l s hall] at h
    cases h
  · obtain ⟨k, hk, hres⟩ := environment_loop_throws mem cb _ l s hall
    rw [hres] at h
    exact ⟨k, hk, by injection h with h; exact h.symm⟩

theorem environment_loop_ok_inv {F σ : Type} (mem : sceneio_memory F)
    (cb : Option (progress_callback σ)) (tm : unordered_map) (l : List Nat)
    (s s' : loop_state F σ) (h : for_each (environment_body mem cb tm) l s = .ok s') :
    ∀ p ∈ l, (convert_environment tm (mem.environments p)).isSome := by
  by_contra hall
  obtain ⟨k, _, hres⟩ := environment_loop_throws mem cb _ l s hall
  rw [hres] at h
  cases h

theorem init_scene_throws {F σ : Type} (mem : sceneio_memory F) (scene : trace_scene F)
    (ioscene : sceneio_scene) (iocamera : Option Nat) (cb : Option (progress_callback σ))
    (obs : σ)
    (h : ¬ convertible mem scene ioscene ∨
      map_at (camera_table scene ioscene) iocamera = none) :
    ∃ msgs, msgs <+: progress_messages ioscene ∧
      init_scene mem scene ioscene iocamera cb obs =
        .threw (report_all cb msgs (progress_start ioscene obs)).obs := by
  unfold init_scene
  simp only [camera_loop, texture_loop]
  split
  · rename_i o heq
    obtain ⟨k, hk, rfl⟩ := material_loop_error_inv mem cb _ _ _ _ heq
    refine ⟨List.replicate ioscene.cameras.length "converting cameras" ++
      (List.replicate ioscene.textures.length "converting textures" ++
        List.replicate (k + 1) "converting materials"), ?_, ?_⟩
    · simp only [progress_messages, List.append_assoc]
      rw [List.prefix_append_right_inj]
      exact replicate_prefix_append k _ hk _ _ _
    · simp only [report_all_append, progress_start, progress_total]
  rename_i s3 heq3
  have hm := material_loop_ok_inv mem cb _ _ _ _ heq3
  rw [material_loop_ok mem cb _ _ _ hm] at heq3
  injection heq3 with heq3
  subst heq3
  simp only []
  split
  · rename_i o heq
    obtain ⟨k, hk, rfl⟩ := shape_loop_error_inv mem cb _ _ _ _ heq
    refine ⟨List.replicate ioscene.cameras.length "converting cameras" ++
      (List.replicate ioscene.textures.length "converting textures" ++
        (List.replicate ioscene.materials.length "converting materials" ++
          List.replicate (k + 1) "converting shapes")), ?_, ?_⟩
    · simp only [progress_messages, List.append_assoc]
      rw [List.prefix_append_right_inj, List.prefix_append_right_inj]
      exact replicate_prefix_append k _ hk _ _ _
    · simp only [report_all_append, progress_start, progress_total]
  rename_i s4 heq4
  have hs := shape_loop_ok_inv mem cb _ _ _ _ heq4
  rw [shape_loop_ok mem cb _ _ _ hs] at heq4
  injection heq4 with heq4
  subst heq4
  simp only []
  split
  · rename_i o heq
    obtain ⟨k, hk, rfl⟩ := instance_loop_error_inv mem cb _ _ _ _ _ heq
    refine ⟨List.replicate ioscene.cameras.length "converting cameras" ++
      (List.replicate ioscene.textures.length "converting textures" ++
        (List.replicate ioscene.materials.length "converting materials" ++
          (List.replicate ioscene.shapes.length "converting shapes" ++
            List.replicate (k + 1) "converting instances"))), ?_, ?_⟩
    · simp only [progress_messages, List.append_assoc]
      rw [List.prefix_append_right_inj, List.prefix_append_right_inj,
        List.prefix_append_right_inj]
      exact replicate_prefix_append k _ hk _ _ _
    · simp only [report_all_append, progress_start, progress_total]
  rename_i s5 heq5
  have hi := instance_loop_ok_inv mem cb _ _ _ _ _ heq5
  rw [instance_loop_ok mem cb _ _ _ _ hi] at heq5
  injection heq5 with heq5
  subst heq5
  simp only []
  split
  · rename_i o heq
    obtain ⟨k, hk, rfl⟩ := environment_loop_error_inv mem cb _ _ _ _ heq
    refine ⟨List.replicate ioscene.cameras.length "converting cameras" ++
      (List.replicate ioscene.textures.length "converting textures" ++
        (List.replicate ioscene.materials.length "converting materials" ++
          (List.replicate ioscene.shapes.length "converting shapes" ++
            (List.replicate ioscene.instances.length "converting instances" ++
              List.replicate (k + 1) "converting environments")))), ?_, ?_⟩
    · simp only [progress_messages, List.append_assoc]
      rw [List.prefix_append_right_inj, List.prefix_append_right_inj,
        List.prefix_append_right_inj, List.prefix_append_right_inj]
      exact replicate_prefix_append k _ hk _ _ _
    · simp only [report_all_append, progress_start, progress_total]
  rename_i s6 heq6
  have he := environment_loop_ok_inv mem cb _ _ _ _ heq6
  rw [environment_loop_ok mem cb _ _ _ he] at heq6
  injection heq6 with heq6
  subst heq6
  have hcam : map_at (camera_table scene ioscene) iocamera = none := by
    rcases h with h | h
    · exact absurd ⟨hm, hs, hi, he⟩ h
    · exact h
  unfold camera_table at hcam
  simp only [hcam]
  refine ⟨progress_messages ioscene, List.prefix_refl _, ?_⟩
  simp [progress_messages, progress_start, progress_total, report_all_append, report_all]

/-! ### Lookups made by the conversions -/

theorem convert_material_eq_some {F : Type} (tm : unordered_map) (io : sceneio_material F)
    (v : trace_material F) (h : convert_material tm io = some v) :
    List.Forall₂ (fun r r' => map_at tm r = some r') io.slots v.slots ∧
    v.emission = io.emission ∧ v.color = io.color ∧ v.specular = io.specular ∧
    v.roughness = io.roughness ∧ v.metallic = io.metallic ∧ v.ior = io.ior ∧
    v.spectint = io.spectint ∧ v.coat = io.coat ∧ v.transmission = io.transmission ∧
    v.translucency = io.translucency ∧ v.scattering = io.scattering ∧
    v.scanisotropy = io.scanisotropy ∧ v.trdepth = io.trdepth ∧ v.opacity = io.opacity ∧
    v.thin = io.thin := by
  simp only [convert_material, bind, Option.bind_eq_some, pure, Option.some.injEq] at h
  obtain ⟨t1, h1, t2, h2, t3, h3, t4, h4, t5, h5, t6, h6, t7, h7, t8, h8, t9, h9, t10, h10,
    t11, h11, t12, h12, rfl⟩ := h
  simp [sceneio_material.slots, trace_material.slots, h1, h2, h3, h4, h5, h6, h7, h8, h9, h10,
    h11, h12]

theorem convert_material_isSome {F : Type} (tm : unordered_map) (io : sceneio_material F) :
    (convert_material tm io).isSome ↔ ∀ r ∈ io.slots, (map_at tm r).isSome := by
  constructor
  · intro h
    obtain ⟨v, hv⟩ := Option.isSome_iff_exists.mp h
    have h12 := (convert_material_eq_some tm io v hv).1
    simp only [sceneio_material.slots, trace_material.slots, List.forall₂_cons,
      List.Forall₂.nil, and_true] at h12
    obtain ⟨h1, h2, h3, h4, h5, h6, h7, h8, h9, h10, h11, h12⟩ := h12
    simp [sceneio_material.slots, h1, h2, h3, h4, h5, h6, h7, h8, h9, h10, h11, h12]
  · intro h
    simp only [sceneio_material.slots, List.mem_cons, List.mem_singleton, forall_eq_or_imp,
      forall_eq, Option.isSome_iff_exists, List.not_mem_nil, false_implies, implies_true,
      and_true] at h
    obtain ⟨⟨t1, h1⟩, ⟨t2, h2⟩, ⟨t3, h3⟩, ⟨t4, h4⟩, ⟨t5, h5⟩, ⟨t6, h6⟩, ⟨t7, h7⟩, ⟨t8, h8⟩,
      ⟨t9, h9⟩, ⟨t10, h10⟩, ⟨t11, h11⟩, ⟨t12, h12⟩⟩ := h
    simp [convert_material, bind, h1, h2, h3, h4, h5, h6, h7, h8, h9, h10, h11, h12, pure]

theorem convert_shape_isSome {F : Type} (tm : unordered_map) (io : sceneio_shape F) :
    (convert_shape tm io).isSome ↔ (map_at tm io.displacement_tex).isSome := by
  cases h : map_at tm io.displacement_tex <;> simp [convert_shape, bind, h, pure]

theorem convert_instance_isSome {F : Type} (sm mm : unordered_map) (io : sceneio_instance F) :
    (convert_instance sm mm io).isSome ↔
      ((map_at sm io.shape).isSome ∧ (map_at mm io.material).isSome) := by
  cases h : map_at sm io.shape <;> cases h' : map_at mm io.material <;>
    simp [convert_instance, bind, h, h', pure]

theorem convert_environment_isSome {F : Type} (tm : unordered_map)
    (io : sceneio_environment F) :
    (convert_environment tm io).isSome ↔ (map_at tm io.emission_tex).isSome := by
  cases h : map_at tm io.emission_tex <;> simp [convert_environment, bind, h, pure]

/-- Every lookup succeeds exactly when every reference of the scene resolves. -/
theorem convertible_iff_resolved {F : Type} (mem : sceneio_memory F) (scene : trace_scene F)
    (ioscene : sceneio_scene) :
    convertible mem scene ioscene ↔ ioscene.resolved mem := by
  simp only [convertible, sceneio_scene.resolved, convert_material_isSome,
    convert_shape_isSome, convert_instance_isSome, convert_environment_isSome,
    texture_table, shape_table, material_table, map_at_table_isSome, resolves]

theorem not_resolved_of_dangling {F : Type} (mem : sceneio_memory F) (ioscene : sceneio_scene)
    (h : ioscene.dangling mem) : ¬ ioscene.resolved mem := by
  rintro ⟨hm, hs, hi, he⟩
  rcases h with ⟨p, hp, r, hr, t, rfl, ht⟩ | ⟨p, hp, t, hpt, ht⟩ | ⟨p, hp, t, hpt, ht⟩ |
    ⟨p, hp, t, hpt, ht⟩ | ⟨p, hp, t, hpt, ht⟩
  · exact ht (hm p hp _ hr t rfl)
  · exact ht (hs p hp t hpt)
  · exact ht ((hi p hp).1 t hpt)
  · exact ht ((hi p hp).2 t hpt)
  · exact ht (he p hp t hpt)

/-! ### Positions in the converted lists -/

theorem forall₂_filterMap_of_isSome {α β : Type} (g : α → Option β) (l : List α)
    (h : ∀ a ∈ l, (g a).isSome) :
    List.Forall₂ (fun a b => g a = some b) l (l.filterMap g) := by
  induction l with
  | nil => simp
  | cons a l ih =>
    obtain ⟨b, hb⟩ := Option.isSome_iff_exists.mp (h a (List.mem_cons_self _ _))
    rw [List.filterMap_cons_some hb]
    exact List.Forall₂.cons hb (ih (fun x hx => h x (List.mem_cons_of_mem _ hx)))

theorem forall₂_getElem? {α β : Type} (R : α → β → Prop) (l : List α) (l' : List β)
    (h : List.Forall₂ R l l') (k : Nat) (a : α) (hk : l[k]? = some a) :
    ∃ b, l'[k]? = some b ∧ R a b := by
  induction h generalizing k with
  | nil => simp at hk
  | cons hab _ ih =>
    cases k with
    | zero =>
      simp at hk
      subst hk
      exact ⟨_, by simp, hab⟩
    | succ k =>
      simp at hk
      obtain ⟨b, hb, hR⟩ := ih k hk
      exact ⟨b, by simpa using hb, hR⟩

theorem getElem?_append_created {β : Type} (old new : List β) (k : Nat) :
    (old ++ new)[old.length + k]? = new[k]? := by
  rw [List.getElem?_append_right (by omega)]
  congr 1; omega

theorem translated_of_map_at (l : List Nat) (hl : l.Nodup) (n : Nat) (r r' : Option Nat)
    (h : map_at (extend_map null_map n l) r = some r') : translated l n r r' := by
  cases r with
  | none =>
    rw [map_at_extend_none, map_at_null_none] at h
    injection h with h
    subst h
    exact ⟨by simp, by intro j p _ hp; cases hp⟩
  | some p =>
    by_cases hp : p ∈ l
    · obtain ⟨j0, _, hmap⟩ := map_at_extend_mem null_map n l p hp
      rw [hmap] at h
      injection h with h
      subst h
      refine ⟨by simp, ?_⟩
      intro j q hj hq
      injection hq with hq
      subst hq
      have := map_at_extend_nodup null_map n l hl j p hj
      rw [hmap] at this
      injection this
    · rw [map_at_extend_not_mem _ _ _ _ hp, map_at_null_some] at h
      cases h

/-- C1. For an authoring scene without duplicate pointers whose references all
resolve (the selected camera included), `init_scene` returns, and every reference
attribute of the render entity created for the `k`-th authoring entity of a kind
is the image of the same attribute of that authoring entity: the twelve texture
slots of a material, the displacement texture of a shape, the shape and the
material of an instance, the emission texture of an environment.  The image is
null exactly when the authoring reference is null, and otherwise it is the render
entity created for the authoring entity pointed to. -/
theorem init_scene_translates_references {F σ : Type} (mem : sceneio_memory F)
    (scene : trace_scene F) (ioscene : sceneio_scene) (iocamera : Option Nat)
    (cb : Option (progress_callback σ)) (obs : σ)
    (hnodup : ioscene.nodup) (hres : ioscene.resolved mem)
    (hcam : resolves ioscene.cameras iocamera) :
    ∃ scene' camera' obs',
      init_scene mem scene ioscene iocamera cb obs = .returned scene' camera' obs' ∧
      (∀ k p, ioscene.materials[k]? = some p →
        ∃ m, scene'.materials[scene.materials.length + k]? = some m ∧
          List.Forall₂ (translated ioscene.textures scene.textures.length)
            (mem.materials p).slots m.slots) ∧
      (∀ k p, ioscene.shapes[k]? = some p →
        ∃ s, scene'.shapes[scene.shapes.length + k]? = some s ∧
          translated ioscene.textures scene.textures.length
            (mem.shapes p).displacement_tex s.displacement_tex) ∧
      (∀ k p, ioscene.instances[k]? = some p →
        ∃ i, scene'.instances[scene.instances.length + k]? = some i ∧
          translated ioscene.shapes scene.shapes.length (mem.instances p).shape i.shape ∧
          translated ioscene.materials scene.materials.length
            (mem.instances p).material i.material) ∧
      (∀ k p, ioscene.environments[k]? = some p →
        ∃ e, scene'.environments[scene.environments.length + k]? = some e ∧
          translated ioscene.textures scene.textures.length
            (mem.environments p).emission_tex e.emission_tex) := by
  have hconv := (convertible_iff_resolved mem scene ioscene).mpr hres
  obtain ⟨c, hc⟩ : ∃ c, map_at (camera_table scene ioscene) iocamera = some c :=
    Option.isSome_iff_exists.mp ((map_at_table_isSome _ _ _).mpr hcam)
  obtain ⟨_, hnt, hnm, hns, _, _⟩ := hnodup
  refine ⟨_, _, _, init_scene_returns mem scene ioscene iocamera cb obs hconv c hc,
    ?_, ?_, ?_, ?_⟩
  · intro k p hk
    obtain ⟨v, hget, hv⟩ := forall₂_getElem? _ _ _
      (forall₂_filterMap_of_isSome _ _ hconv.1) k p hk
    refine ⟨v, ?_, ?_⟩
    · simp only [converted_scene]
      rw [getElem?_append_created, hget]
    · exact (convert_material_eq_some _ _ _ hv).1.imp
        (fun r r' h => translated_of_map_at _ hnt _ r r' h)
  · intro k p hk
    obtain ⟨v, hget, hv⟩ := forall₂_getElem? _ _ _
      (forall₂_filterMap_of_isSome _ _ hconv.2.1) k p hk
    refine ⟨v, ?_, ?_⟩
    · simp only [converted_scene]
      rw [getElem?_append_created, hget]
    · simp only [convert_shape, bind, Option.bind_eq_some, pure, Option.some.injEq] at hv
      obtain ⟨t, ht, rfl⟩ := hv
      exact translated_of_map_at _ hnt _ _ _ ht
  · intro k p hk
    obtain ⟨v, hget, hv⟩ := forall₂_getElem? _ _ _
      (forall₂_filterMap_of_isSome _ _ hconv.2.2.1) k p hk
    refine ⟨v, ?_, ?_⟩
    · simp only [converted_scene]
      rw [getElem?_append_created, hget]
    · simp only [convert_instance, bind, Option.bind_eq_some, pure, Option.some.injEq] at hv
      obtain ⟨t, ht, u, hu, rfl⟩ := hv
      exact ⟨translated_of_map_at _ hns _ _ _ ht, translated_of_map_at _ hnm _ _ _ hu⟩
  · intro k p hk
    obtain ⟨v, hget, hv⟩ := forall₂_getElem? _ _ _
      (forall₂_filterMap_of_isSome _ _ hconv.2.2.2) k p hk
    refine ⟨v, ?_, ?_⟩
    · simp only [converted_scene]
      rw [getElem?_append_created, hget]
    · simp only [convert_environment, bind, Option.bind_eq_some, pure,
        Option.some.injEq] at hv
      obtain ⟨t, ht, rfl⟩ := hv
      exact translated_of_map_at _ hnt _ _ _ ht

theorem scenario_scene_nodup : scenario_scene.nodup := by
  simp [sceneio_scene.nodup, scenario_scene]

theorem scenario_scene_resolved : scenario_scene.resolved scenario_memory := by
  simp [sceneio_scene.resolved, scenario_scene, scenario_memory, sceneio_material.slots,
    resolves]

/-- C1 at the concrete scene, converted into an empty render scene with the camera
at address 11 selected. -/
theorem init_scene_translates_references_witness :
    scenario_scene.nodup ∧ scenario_scene.resolved scenario_memory ∧
    resolves scenario_scene.cameras (some 11) ∧
    ∃ scene' camera' obs',
      init_scene scenario_memory (trace_scene.empty Int) scenario_scene (some 11)
        (none : Option (progress_callback Unit)) () = .returned scene' camera' obs' ∧
      (∀ k p, scenario_scene.materials[k]? = some p →
        ∃ m, scene'.materials[(trace_scene.empty Int).materials.length + k]? = some m ∧
          List.Forall₂
            (translated scenario_scene.textures (trace_scene.empty Int).textures.length)
            (scenario_memory.materials p).slots m.slots) ∧
      (∀ k p, scenario_scene.shapes[k]? = some p →
        ∃ s, scene'.shapes[(trace_scene.empty Int).shapes.length + k]? = some s ∧
          translated scenario_scene.textures (trace_scene.empty Int).textures.length
            (scenario_memory.shapes p).displacement_tex s.displacement_tex) ∧
      (∀ k p, scenario_scene.instances[k]? = some p →
        ∃ i, scene'.instances[(trace_scene.empty Int).instances.length + k]? = some i ∧
          translated scenario_scene.shapes (trace_scene.empty Int).shapes.length
            (scenario_memory.instances p).shape i.shape ∧
          translated scenario_scene.materials (trace_scene.empty Int).materials.length
            (scenario_memory.instances p).material i.material) ∧
      (∀ k p, scenario_scene.environments[k]? = some p →
        ∃ e, scene'.environments[(trace_scene.empty Int).environments.length + k]? = some e ∧
          translated scenario_scene.textures (trace_scene.empty Int).textures.length
            (scenario_memory.environments p).emission_tex e.emission_tex) :=
  ⟨scenario_scene_nodup, scenario_scene_resolved, by simp [resolves, scenario_scene],
    init_scene_translates_references scenario_memory (trace_scene.empty Int) scenario_scene
      (some 11) none () scenario_scene_nodup scenario_scene_resolved
      (by simp [resolves, scenario_scene])⟩

/-- C2. When some non-null reference attribute of the authoring scene (a texture
slot of a material, the displacement texture of a shape, the shape or the material
of an instance, the emission texture of an environment) points to an entity that is
not in the scene's list of that kind, `init_scene` ends with an exception: it does
not return, whatever the render scene on entry, the selected camera and the
progress callback. -/
theorem init_scene_dangling_throws {F σ : Type} (mem : sceneio_memory F)
    (scene : trace_scene F) (ioscene : sceneio_scene) (iocamera : Option Nat)
    (cb : Option (progress_callback σ)) (obs : σ) (h : ioscene.dangling mem) :
    (∃ o, init_scene mem scene ioscene iocamera cb obs = .threw o) ∧
    ¬ ∃ scene' camera' obs',
      init_scene mem scene ioscene iocamera cb obs = .returned scene' camera' obs' := by
  have hn : ¬ convertible mem scene ioscene := fun hc =>
    not_resolved_of_dangling mem ioscene h ((convertible_iff_resolved mem scene ioscene).mp hc)
  obtain ⟨msgs, _, hthrow⟩ := init_scene_throws mem scene ioscene iocamera cb obs (Or.inl hn)
  refine ⟨⟨_, hthrow⟩, ?_⟩
  rintro ⟨scene', camera', obs', hret⟩
  rw [hthrow] at hret
  cases hret

theorem scenario_scene_dangling_dangling : scenario_scene_dangling.dangling scenario_memory := by
  refine Or.inl ⟨30, by simp [scenario_scene_dangling], some 20, ?_, 20, rfl, ?_⟩
  · simp [scenario_memory, sceneio_material.slots]
  · simp [scenario_scene_dangling]

/-- C2 at the concrete scene without its texture. -/
theorem init_scene_dangling_throws_witness :
    scenario_scene_dangling.dangling scenario_memory ∧
    ((∃ o, init_scene scenario_memory (trace_scene.empty Int) scenario_scene_dangling
        (some 10) (none : Option (progress_callback Unit)) () = .threw o) ∧
     ¬ ∃ scene' camera' obs',
        init_scene scenario_memory (trace_scene.empty Int) scenario_scene_dangling
          (some 10) (none : Option (progress_callback Unit)) () =
            .returned scene' camera' obs') :=
  ⟨scenario_scene_dangling_dangling,
    init_scene_dangling_throws scenario_memory (trace_scene.empty Int)
      scenario_scene_dangling (some 10) none () scenario_scene_dangling_dangling⟩

theorem convert_shape_copied {F : Type} (tm : unordered_map) (io : sceneio_shape F)
    (v : trace_shape F) (h : convert_shape tm io = some v) : shape_copied io v := by
  simp only [convert_shape, bind, Option.bind_eq_some, pure, Option.some.injEq] at h
  obtain ⟨t, _, rfl⟩ := h
  simp [shape_copied]

theorem convert_instance_copied {F : Type} (sm mm : unordered_map) (io : sceneio_instance F)
    (v : trace_instance F) (h : convert_instance sm mm io = some v) :
    instance_copied io v := by
  simp only [convert_instance, bind, Option.bind_eq_some, pure, Option.some.injEq] at h
  obtain ⟨t, _, u, _, rfl⟩ := h
  simp [instance_copied]

theorem convert_environment_copied {F : Type} (tm : unordered_map)
    (io : sceneio_environment F) (v : trace_environment F)
    (h : convert_environment tm io = some v) : environment_copied io v := by
  simp only [convert_environment, bind, Option.bind_eq_some, pure, Option.some.injEq] at h
  obtain ⟨t, _, rfl⟩ := h
  simp [environment_copied]

theorem scenario_scene_repeated_resolved :
    scenario_scene_repeated.resolved scenario_memory := by
  simp [sceneio_scene.resolved, scenario_scene_repeated, scenario_memory,
    sceneio_material.slots, resolves]

/-- C3, as stated, fails.  The camera list is `[10, 11, 10]`, every reference of the
scene resolves, the render scene is empty on entry and the camera at address 10 is
selected.  It is camera 0 of the scene, yet the active camera returned is render
camera 2, the one created for the last occurrence of the pointer, not render
camera 0. -/
theorem init_scene_copies_attributes_counterexample :
    scenario_scene_repeated.resolved scenario_memory ∧
    scenario_scene_repeated.cameras[0]? = some 10 ∧
    (init_scene scenario_memory (trace_scene.empty Int) scenario_scene_repeated (some 10)
      (none : Option (progress_callback Unit)) ()).completed = true ∧
    ((init_scene scenario_memory (trace_scene.empty Int) scenario_scene_repeated (some 10)
      (none : Option (progress_callback Unit)) ()).outcome.map (fun r => r.2)) =
        some (some 2) ∧
    ((init_scene scenario_memory (trace_scene.empty Int) scenario_scene_repeated (some 10)
      (none : Option (progress_callback Unit)) ()).outcome.map (fun r => r.2)) ≠
        some (some 0) := by
  have h : ((init_scene scenario_memory (trace_scene.empty Int) scenario_scene_repeated
      (some 10) (none : Option (progress_callback Unit)) ()).outcome.map (fun r => r.2)) =
        some (some 2) := rfl
  refine ⟨scenario_scene_repeated_resolved, rfl, rfl, h, ?_⟩
  rw [h]
  decide

/-- C3, amended.  An authoring scene whose references all resolve (the selected
camera included) is converted into an empty render scene.  Then `init_scene`
returns and the render scene holds, for each kind, one entity per authoring entity,
in the same order, whose scalar and array attributes equal those of the authoring
entity.  When the selected authoring camera is the `k`-th camera of the scene, the
active camera returned is the render camera created for the last position `j` at
which that camera is held in the camera list, and its frame, lens, aspect, film,
orthographic flag, aperture and focus are those of authoring camera `k`.  It is the
`k`-th render camera when the camera is not held again after position `k`, in
particular when the camera list holds no pointer twice. -/
theorem init_scene_copies_attributes {F σ : Type} (mem : sceneio_memory F)
    (ioscene : sceneio_scene) (iocamera : Option Nat) (cb : Option (progress_callback σ))
    (obs : σ) (hres : ioscene.resolved mem) (hcam : resolves ioscene.cameras iocamera) :
    ∃ scene' camera' obs',
      init_scene mem (trace_scene.empty F) ioscene iocamera cb obs =
        .returned scene' camera' obs' ∧
      List.Forall₂ (fun p c => camera_copied (mem.cameras p) c)
        ioscene.cameras scene'.cameras ∧
      List.Forall₂ (fun p t => texture_copied (mem.textures p) t)
        ioscene.textures scene'.textures ∧
      List.Forall₂ (fun p m => material_copied (mem.materials p) m)
        ioscene.materials scene'.materials ∧
      List.Forall₂ (fun p s => shape_copied (mem.shapes p) s)
        ioscene.shapes scene'.shapes ∧
      List.Forall₂ (fun p i => instance_copied (mem.instances p) i)
        ioscene.instances scene'.instances ∧
      List.Forall₂ (fun p e => environment_copied (mem.environments p) e)
        ioscene.environments scene'.environments ∧
      (∀ k p, ioscene.cameras[k]? = some p → iocamera = some p →
        (∃ j c, camera' = some j ∧ ioscene.cameras[j]? = some p ∧
          (∀ j', j < j' → ioscene.cameras[j']? ≠ some p) ∧
          scene'.cameras[j]? = some c ∧ camera_copied (mem.cameras p) c) ∧
        ((∀ j', k < j' → ioscene.cameras[j']? ≠ some p) → camera' = some k) ∧
        (ioscene.cameras.Nodup → camera' = some k)) := by
  have hconv := (convertible_iff_resolved mem (trace_scene.empty F) ioscene).mpr hres
  obtain ⟨c, hc⟩ :
      ∃ c, map_at (camera_table (trace_scene.empty F) ioscene) iocamera = some c :=
    Option.isSome_iff_exists.mp ((map_at_table_isSome _ _ _).mpr hcam)
  have hcams : List.Forall₂ (fun p c => camera_copied (mem.cameras p) c) ioscene.cameras
      ((converted_scene mem (trace_scene.empty F) ioscene).cameras) := by
    simp only [converted_scene, trace_scene.empty, List.nil_append]
    rw [List.forall₂_map_right_iff]
    exact List.forall₂_same.mpr (fun p _ => by simp [camera_copied, convert_camera])
  refine ⟨_, _, _,
    init_scene_returns mem (trace_scene.empty F) ioscene iocamera cb obs hconv c hc,
    hcams, ?_, ?_, ?_, ?_, ?_, ?_⟩
  · simp only [converted_scene, trace_scene.empty, List.nil_append]
    rw [List.forall₂_map_right_iff]
    exact List.forall₂_same.mpr (fun p _ => by simp [texture_copied, convert_texture])
  · simp only [converted_scene, trace_scene.empty, List.nil_append]
    exact (forall₂_filterMap_of_isSome _ _ hconv.1).imp
      (fun p v h => (convert_material_eq_some _ _ _ h).2)
  · simp only [converted_scene, trace_scene.empty, List.nil_append]
    exact (forall₂_filterMap_of_isSome _ _ hconv.2.1).imp
      (fun p v h => convert_shape_copied _ _ _ h)
  · simp only [converted_scene, trace_scene.empty, List.nil_append]
    exact (forall₂_filterMap_of_isSome _ _ hconv.2.2.1).imp
      (fun p v h => convert_instance_copied _ _ _ _ h)
  · simp only [converted_scene, trace_scene.empty, List.nil_append]
    exact (forall₂_filterMap_of_isSome _ _ hconv.2.2.2).imp
      (fun p v h => convert_environment_copied _ _ _ h)
  · intro k p hk hsel
    subst hsel
    simp only [camera_table, trace_scene.empty, List.length_nil] at hc
    obtain ⟨j, hj, hlast, hmap⟩ := map_at_extend_last null_map 0 ioscene.cameras p
      (List.getElem?_mem hk)
    rw [hmap] at hc
    injection hc with hc
    subst hc
    have hjk : ∀ k', ioscene.cameras[k']? = some p →
        (∀ j', k' < j' → ioscene.cameras[j']? ≠ some p) → j = k' := by
      intro k' hk' hlast'
      rcases Nat.lt_trichotomy j k' with h | h | h
      · exact absurd hk' (hlast k' h)
      · exact h
      · exact absurd hj (hlast' j h)
    refine ⟨?_, ?_, ?_⟩
    · obtain ⟨c, hget, hcopied⟩ := forall₂_getElem? _ _ _ hcams j p hj
      exact ⟨j, c, by simp, hj, hlast, hget, hcopied⟩
    · intro hlast'
      have := hjk k hk hlast'
      subst this
      simp
    · intro hnodup
      have hmap' := map_at_extend_nodup null_map 0 ioscene.cameras hnodup k p hk
      rw [hmap] at hmap'
      injection hmap' with hmap'
      injection hmap' with hmap'
      simp only [Nat.zero_add] at hmap' ⊢
      rw [hmap']

/-- C3, amended, at the concrete scene whose camera list is `[10, 11, 10]`, with the
camera at address 10 selected. -/
theorem init_scene_copies_attributes_witness :
    scenario_scene_repeated.resolved scenario_memory ∧
    resolves scenario_scene_repeated.cameras (some 10) ∧
    ∃ scene' camera' obs',
      init_scene scenario_memory (trace_scene.empty Int) scenario_scene_repeated (some 10)
        (none : Option (progress_callback Unit)) () = .returned scene' camera' obs' ∧
      List.Forall₂ (fun p c => camera_copied (scenario_memory.cameras p) c)
        scenario_scene_repeated.cameras scene'.cameras ∧
      List.Forall₂ (fun p t => texture_copied (scenario_memory.textures p) t)
        scenario_scene_repeated.textures scene'.textures ∧
      List.Forall₂ (fun p m => material_copied (scenario_memory.materials p) m)
        scenario_scene_repeated.materials scene'.materials ∧
      List.Forall₂ (fun p s => shape_copied (scenario_memory.shapes p) s)
        scenario_scene_repeated.shapes scene'.shapes ∧
      List.Forall₂ (fun p i => instance_copied (scenario_memory.instances p) i)
        scenario_scene_repeated.instances scene'.instances ∧
      List.Forall₂ (fun p e => environment_copied (scenario_memory.environments p) e)
        scenario_scene_repeated.environments scene'.environments ∧
      (∀ k p, scenario_scene_repeated.cameras[k]? = some p → some 10 = some p →
        (∃ j c, camera' = some j ∧ scenario_scene_repeated.cameras[j]? = some p ∧
          (∀ j', j < j' → scenario_scene_repeated.cameras[j']? ≠ some p) ∧
          scene'.cameras[j]? = some c ∧ camera_copied (scenario_memory.cameras p) c) ∧
        ((∀ j', k < j' → scenario_scene_repeated.cameras[j']? ≠ some p) →
          camera' = some k) ∧
        (scenario_scene_repeated.cameras.Nodup → camera' = some k)) :=
  ⟨scenario_scene_repeated_resolved, by simp [resolves, scenario_scene_repeated],
    init_scene_copies_attributes scenario_memory scenario_scene_repeated (some 10) none ()
      scenario_scene_repeated_resolved (by simp [resolves, scenario_scene_repeated])⟩

/-- C4, as stated, fails at two inputs.  The concrete scene has all its references
resolving and the camera at address 12 is not in its camera list: `init_scene` with
that camera selected throws instead of returning a null active camera.  The
concrete scene without its texture has a dangling reference: `init_scene` with a
null camera selected throws as well. -/
theorem init_scene_unconverted_camera_counterexample :
    12 ∉ scenario_scene.cameras ∧ scenario_scene.resolved scenario_memory ∧
    init_scene scenario_memory (trace_scene.empty Int) scenario_scene (some 12)
      (none : Option (progress_callback Unit)) () = .threw () ∧
    (¬ ∃ scene' obs',
      init_scene scenario_memory (trace_scene.empty Int) scenario_scene (some 12)
        (none : Option (progress_callback Unit)) () = .returned scene' none obs') ∧
    init_scene scenario_memory (trace_scene.empty Int) scenario_scene_dangling none
      (none : Option (progress_callback Unit)) () = .threw () ∧
    (¬ ∃ scene' obs',
      init_scene scenario_memory (trace_scene.empty Int) scenario_scene_dangling none
        (none : Option (progress_callback Unit)) () = .returned scene' none obs') := by
  have h : init_scene scenario_memory (trace_scene.empty Int) scenario_scene (some 12)
      (none : Option (progress_callback Unit)) () = .threw () := rfl
  have h' : init_scene scenario_memory (trace_scene.empty Int) scenario_scene_dangling none
      (none : Option (progress_callback Unit)) () = .threw () := rfl
  refine ⟨by simp [scenario_scene], scenario_scene_resolved, h, ?_, h', ?_⟩
  · rintro ⟨scene', obs', hret⟩
    rw [h] at hret
    cases hret
  · rintro ⟨scene', obs', hret⟩
    rw [h'] at hret
    cases hret

/-- C4, amended.  For an authoring scene whose references all resolve, `init_scene`
with a null selected camera returns, and the active camera it returns is null.
With a selected camera that is not null and not in the camera list of the scene,
`init_scene` throws, for every authoring scene. -/
theorem init_scene_unconverted_camera {F σ : Type} (mem : sceneio_memory F)
    (scene : trace_scene F) (ioscene : sceneio_scene) (cb : Option (progress_callback σ))
    (obs : σ) :
    (ioscene.resolved mem →
      ∃ scene' obs', init_scene mem scene ioscene none cb obs =
        .returned scene' none obs') ∧
    (∀ p, p ∉ ioscene.cameras →
      ∃ o, init_scene mem scene ioscene (some p) cb obs = .threw o) := by
  constructor
  · intro hres
    have hconv := (convertible_iff_resolved mem scene ioscene).mpr hres
    have hc : map_at (camera_table scene ioscene) none = some none := by
      rw [camera_table, map_at_extend_none, map_at_null_none]
    exact ⟨_, _, init_scene_returns mem scene ioscene none cb obs hconv none hc⟩
  · intro p hp
    have hc : map_at (camera_table scene ioscene) (some p) = none := by
      rw [camera_table, map_at_extend_not_mem _ _ _ _ hp, map_at_null_some]
    obtain ⟨msgs, _, hthrow⟩ :=
      init_scene_throws mem scene ioscene (some p) cb obs (Or.inr hc)
    exact ⟨_, hthrow⟩

/-- C4, amended, at the concrete scene: null camera and the camera at address 12. -/
theorem init_scene_unconverted_camera_witness :
    scenario_scene.resolved scenario_memory ∧
    (∃ scene' obs', init_scene scenario_memory (trace_scene.empty Int) scenario_scene none
        (none : Option (progress_callback Unit)) () = .returned scene' none obs') ∧
    12 ∉ scenario_scene.cameras ∧
    (∃ o, init_scene scenario_memory (trace_scene.empty Int) scenario_scene (some 12)
        (none : Option (progress_callback Unit)) () = .threw o) :=
  ⟨scenario_scene_resolved,
    (init_scene_unconverted_camera scenario_memory (trace_scene.empty Int) scenario_scene
      none ()).1 scenario_scene_resolved,
    by simp [scenario_scene],
    (init_scene_unconverted_camera scenario_memory (trace_scene.empty Int) scenario_scene
      none ()).2 12 (by simp [scenario_scene])⟩

/-! ### Progress -/

theorem report_all_record (msgs : List String) (x y : Int) (log : List progress_call) :
    report_all (some record) msgs { progress := { x := x, y := y }, obs := log } =
      { progress := { x := x + msgs.length, y := y }, obs := log ++ calls_of msgs x y } := by
  induction msgs generalizing x log with
  | nil => simp [report_all, calls_of]
  | cons m ms ih =>
    simp only [report_all, report, record, ih, calls_of, List.length_cons, List.append_assoc,
      List.singleton_append, Nat.cast_add, Nat.cast_one]
    congr 2
    omega

theorem calls_of_getElem? (msgs : List String) (x y : Int) (i : Nat) (c : progress_call)
    (h : (calls_of msgs x y)[i]? = some c) :
    c.current = x + i ∧ c.total = y ∧ msgs[i]? = some c.message := by
  induction msgs generalizing x i with
  | nil => simp [calls_of] at h
  | cons m ms ih =>
    cases i with
    | zero =>
      simp [calls_of] at h
      subst h
      simp
    | succ i =>
      simp only [calls_of, List.getElem?_cons_succ] at h
      obtain ⟨h1, h2, h3⟩ := ih (x + 1) i h
      refine ⟨?_, h2, by simpa using h3⟩
      rw [h1]; push_cast; omega

theorem calls_of_append (ms ns : List String) (x y : Int) :
    calls_of (ms ++ ns) x y = calls_of ms x y ++ calls_of ns (x + ms.length) y := by
  induction ms generalizing x with
  | nil => simp [calls_of]
  | cons m ms ih =>
    have hx : x + 1 + (ms.length : Int) = x + ((ms.length : Int) + 1) := by omega
    simp [calls_of, ih, hx]

theorem progress_messages_length (ioscene : sceneio_scene) :
    ((progress_messages ioscene).length : Int) = progress_total ioscene + 1 := by
  simp only [progress_messages, progress_total, List.length_append, List.length_replicate,
    List.length_singleton]
  push_cast
  ring

/-- What the progress observer has seen when `init_scene` ends: the reports of a
prefix of the messages of a complete conversion, all of them when it returns. -/
theorem init_scene_obs {F σ : Type} (mem : sceneio_memory F) (scene : trace_scene F)
    (ioscene : sceneio_scene) (iocamera : Option Nat) (cb : Option (progress_callback σ))
    (obs : σ) :
    ∃ msgs, msgs <+: progress_messages ioscene ∧
      ((init_scene mem scene ioscene iocamera cb obs).completed = true →
        msgs = progress_messages ioscene) ∧
      (init_scene mem scene ioscene iocamera cb obs).obs =
        (report_all cb msgs (progress_start ioscene obs)).obs := by
  by_cases hconv : convertible mem scene ioscene
  · cases hc : map_at (camera_table scene ioscene) iocamera with
    | none =>
      obtain ⟨msgs, hpre, hthrow⟩ :=
        init_scene_throws mem scene ioscene iocamera cb obs (Or.inr hc)
      exact ⟨msgs, hpre, by simp [hthrow, init_result.completed],
        by simp [hthrow, init_result.obs]⟩
    | some c =>
      refine ⟨progress_messages ioscene, List.prefix_refl _, fun _ => rfl, ?_⟩
      simp [init_scene_returns mem scene ioscene iocamera cb obs hconv c hc, init_result.obs]
  · obtain ⟨msgs, hpre, hthrow⟩ :=
      init_scene_throws mem scene ioscene iocamera cb obs (Or.inl hconv)
    exact ⟨msgs, hpre, by simp [hthrow, init_result.completed],
      by simp [hthrow, init_result.obs]⟩

/-- C10. `init_scene` runs with the progress callback that records its calls.  The
`i`-th call (counting from 0, in call order) carries the counter `i`, so the
counters are 0, 1, 2, ... and strictly increase; every call carries the total
computed on entry; no counter exceeds that total.  When `init_scene` returns, the
last call is the "converting done" notification, whose counter equals the total. -/
theorem init_scene_progress_increasing {F : Type} (mem : sceneio_memory F)
    (scene : trace_scene F) (ioscene : sceneio_scene) (iocamera : Option Nat) :
    (∀ (i : Nat) (c : progress_call),
      (init_scene mem scene ioscene iocamera (some record) []).obs[i]? = some c →
      c.current = (i : Int) ∧ c.total = progress_total ioscene ∧ c.current ≤ c.total) ∧
    ((init_scene mem scene ioscene iocamera (some record) []).completed = true →
      (init_scene mem scene ioscene iocamera (some record) []).obs.getLast? =
        some { message := "converting done", current := progress_total ioscene,
               total := progress_total ioscene }) := by
  obtain ⟨msgs, hpre, hdone, hobs⟩ :=
    init_scene_obs mem scene ioscene iocamera (some record) ([] : List progress_call)
  rw [hobs, progress_start, report_all_record]
  simp only [List.nil_append]
  constructor
  · intro i c hi
    obtain ⟨h1, h2, h3⟩ := calls_of_getElem? msgs 0 _ i c hi
    refine ⟨by simpa using h1, h2, ?_⟩
    have hlen : i < msgs.length := by
      have := (List.getElem?_eq_some_iff.mp h3).1
      exact this
    have hle : msgs.length ≤ (progress_messages ioscene).length := hpre.length_le
    have htot := progress_messages_length ioscene
    rw [h1, h2]
    omega
  · intro hret
    rw [hdone hret]
    have hsplit : progress_messages ioscene =
        (progress_messages ioscene).dropLast ++ ["converting done"] := by
      simp [progress_messages]
    rw [hsplit, calls_of_append]
    have htot := progress_messages_length ioscene
    rw [hsplit] at htot
    simp only [List.length_append, List.length_singleton, Nat.cast_add, Nat.cast_one] at htot
    have hx : (0 : Int) + ((progress_messages ioscene).dropLast.length : Int) =
        progress_total ioscene := by omega
    rw [hx]
    simp [calls_of]

/-- C10 at the concrete scene: six entities, seven calls; the call of index 3 is
the report of the material, and the conversion returns. -/
theorem init_scene_progress_increasing_witness :
    (init_scene scenario_memory (trace_scene.empty Int) scenario_scene (some 11)
      (some record) []).obs[3]? =
      some { message := "converting materials", current := 3, total := 6 } ∧
    (init_scene scenario_memory (trace_scene.empty Int) scenario_scene (some 11)
      (some record) []).completed = true ∧
    ((3 : Int) = ((3 : Nat) : Int) ∧ (6 : Int) = progress_total scenario_scene ∧
      (3 : Int) ≤ 6) ∧
    (init_scene scenario_memory (trace_scene.empty Int) scenario_scene (some 11)
      (some record) []).obs.getLast? =
        some { message := "converting done", current := progress_total scenario_scene,
               total := progress_total scenario_scene } :=
  ⟨rfl, rfl,
    (init_scene_progress_increasing scenario_memory (trace_scene.empty Int) scenario_scene
      (some 11)).1 3 { message := "converting materials", current := 3, total := 6 } rfl,
    (init_scene_progress_increasing scenario_memory (trace_scene.empty Int) scenario_scene
      (some 11)).2 rfl⟩

/-! ### `draw_brush` -/

theorem foldl_invariant {α S : Type} (P : S → Prop) (f : S → α → S) (l : List α)
    (h : ∀ a ∈ l, ∀ s, P s → P (f s a)) (s : S) (hs : P s) : P (l.foldl f s) := by
  induction l generalizing s with
  | nil => exact hs
  | cons a l ih =>
    exact ih (fun b hb => h b (List.mem_cons_of_mem _ hb)) _ (h a (List.mem_cons_self _ _) s hs)

theorem foldl_reaches {α S : Type} (P Q : S → Prop) (f : S → α → S) (l : List α) (a0 : α)
    (ha0 : a0 ∈ l) (hP : ∀ a ∈ l, ∀ s, P s → P (f s a))
    (hstep : ∀ s, P s → Q (f s a0)) (hQ : ∀ a ∈ l, ∀ s, P s → Q s → Q (f s a))
    (s : S) (hs : P s) : Q (l.foldl f s) := by
  induction l generalizing s with
  | nil => cases ha0
  | cons a l ih =>
    have hP' : ∀ b ∈ l, ∀ s, P s → P (f s b) := fun b hb => hP b (List.mem_cons_of_mem _ hb)
    have hQ' : ∀ b ∈ l, ∀ s, P s → Q s → Q (f s b) :=
      fun b hb => hQ b (List.mem_cons_of_mem _ hb)
    have hPa : P (f s a) := hP a (List.mem_cons_self _ _) s hs
    rw [List.foldl_cons]
    by_cases hmem : a0 ∈ l
    · exact ih hmem hP' hQ' _ hPa
    · have : a0 = a := by
        rcases List.mem_cons.mp ha0 with h | h
        · exact h
        · exact absurd h hmem
      subst this
      have hQa : Q (f s a0) := hstep s hs
      have := foldl_invariant (fun s => P s ∧ Q s) f l
        (fun b hb s hs => ⟨hP' b hb s hs.1, hQ' b hb s hs.1 hs.2⟩) _ ⟨hPa, hQa⟩
      exact this.2

theorem mem_range_toNat (n : Int) (a : Nat) (h : a ∈ List.range n.toNat) :
    (0 : Int) ≤ a ∧ (a : Int) < n := by
  rw [List.mem_range] at h
  omega

theorem parallel_for_invariant {S : Type} (P : S → Prop) (num1 num2 : Int)
    (func : Int → Int → S → S)
    (h : ∀ i j, 0 ≤ i → i < num1 → 0 ≤ j → j < num2 → ∀ s, P s → P (func i j s))
    (s : S) (hs : P s) : P (parallel_for num1 num2 func s) := by
  unfold parallel_for
  refine foldl_invariant P _ _ (fun j hj s hs => ?_) s hs
  refine foldl_invariant P _ _ (fun i hi s hs => ?_) s hs
  obtain ⟨hi0, hi1⟩ := mem_range_toNat _ _ hi
  obtain ⟨hj0, hj1⟩ := mem_range_toNat _ _ hj
  exact h _ _ hi0 hi1 hj0 hj1 s hs

theorem parallel_for_reaches {S : Type} (P Q : S → Prop) (num1 num2 : Int)
    (func : Int → Int → S → S) (i0 j0 : Int) (hi0 : 0 ≤ i0 ∧ i0 < num1)
    (hj0 : 0 ≤ j0 ∧ j0 < num2)
    (hP : ∀ i j, 0 ≤ i → i < num1 → 0 ≤ j → j < num2 → ∀ s, P s → P (func i j s))
    (hstep : ∀ s, P s → Q (func i0 j0 s))
    (hQ : ∀ i j, 0 ≤ i → i < num1 → 0 ≤ j → j < num2 → ∀ s, P s → Q s → Q (func i j s))
    (s : S) (hs : P s) : Q (parallel_for num1 num2 func s) := by
  unfold parallel_for
  have hrow : ∀ j ∈ List.range num2.toNat, ∀ s, P s →
      P ((List.range num1.toNat).foldl (fun s (i : Nat) => func (i : Int) (j : Int) s) s) := by
    intro j hj s hs
    refine foldl_invariant P _ _ (fun i hi s hs => ?_) s hs
    obtain ⟨hi0, hi1⟩ := mem_range_toNat _ _ hi
    obtain ⟨hj0, hj1⟩ := mem_range_toNat _ _ hj
    exact hP _ _ hi0 hi1 hj0 hj1 s hs
  have hj0' : j0.toNat ∈ List.range num2.toNat := by
    rw [List.mem_range]; omega
  have hi0' : i0.toNat ∈ List.range num1.toNat := by
    rw [List.mem_range]; omega
  have hjc : ((j0.toNat : Nat) : Int) = j0 := by omega
  have hic : ((i0.toNat : Nat) : Int) = i0 := by omega
  refine foldl_reaches P Q _ _ j0.toNat hj0' hrow ?_ ?_ s hs
  · intro s hs
    refine foldl_reaches P Q _ _ i0.toNat hi0' ?_ ?_ ?_ s hs
    · intro i hi s hs
      obtain ⟨h0, h1⟩ := mem_range_toNat _ _ hi
      exact hP _ _ h0 h1 (by omega) (by omega) s hs
    · intro s hs
      rw [hjc, hic]
      exact hstep s hs
    · intro i hi s hs hq
      obtain ⟨h0, h1⟩ := mem_range_toNat _ _ hi
      exact hQ _ _ h0 h1 (by omega) (by omega) s hs hq
  · intro j hj s hs hq
    have := foldl_invariant (fun s => P s ∧ Q s)
      (fun s (i : Nat) => func (i : Int) (j : Int) s) (List.range num1.toNat)
      (fun i hi s hs => by
        obtain ⟨h0, h1⟩ := mem_range_toNat _ _ hi
        obtain ⟨g0, g1⟩ := mem_range_toNat _ _ hj
        exact ⟨hP _ _ h0 h1 g0 g1 s hs.1, hQ _ _ h0 h1 g0 g1 s hs.1 hs.2⟩) s ⟨hs, hq⟩
    exact this.2

theorem foldl_reaches_once {α S : Type} (P Q : S → Prop) (f : S → α → S) (l : List α)
    (hl : l.Nodup) (a0 : α) (ha0 : a0 ∈ l)
    (hP : ∀ a ∈ l, a ≠ a0 → ∀ s, P s → P (f s a))
    (hstep : ∀ s, P s → Q (f s a0))
    (hQ : ∀ a ∈ l, a ≠ a0 → ∀ s, Q s → Q (f s a))
    (s : S) (hs : P s) : Q (l.foldl f s) := by
  induction l generalizing s with
  | nil => cases ha0
  | cons a l ih =>
    rw [List.nodup_cons] at hl
    rw [List.foldl_cons]
    by_cases ha : a = a0
    · subst ha
      refine foldl_invariant Q f l (fun b hb s hq => ?_) _ (hstep s hs)
      have hne : b ≠ a := fun h => hl.1 (h ▸ hb)
      exact hQ b (List.mem_cons_of_mem _ hb) hne s hq
    · have hmem : a0 ∈ l := by
        rcases List.mem_cons.mp ha0 with h | h
        · exact absurd h.symm ha
        · exact h
      exact ih hl.2 hmem (fun b hb => hP b (List.mem_cons_of_mem _ hb))
        (fun b hb => hQ b (List.mem_cons_of_mem _ hb)) _
        (hP a (List.mem_cons_self _ _) ha s hs)

theorem parallel_for_reaches_once {S : Type} (P Q : S → Prop) (num1 num2 : Int)
    (func : Int → Int → S → S) (i0 j0 : Int) (hi0 : 0 ≤ i0 ∧ i0 < num1)
    (hj0 : 0 ≤ j0 ∧ j0 < num2)
    (hP : ∀ i j, 0 ≤ i → i < num1 → 0 ≤ j → j < num2 → (i ≠ i0 ∨ j ≠ j0) →
      ∀ s, P s → P (func i j s))
    (hstep : ∀ s, P s → Q (func i0 j0 s))
    (hQ : ∀ i j, 0 ≤ i → i < num1 → 0 ≤ j → j < num2 → (i ≠ i0 ∨ j ≠ j0) →
      ∀ s, Q s → Q (func i j s))
    (s : S) (hs : P s) : Q (parallel_for num1 num2 func s) := by
  unfold parallel_for
  have hj0' : j0.toNat ∈ List.range num2.toNat := by
    rw [List.mem_range]; omega
  have hi0' : i0.toNat ∈ List.range num1.toNat := by
    rw [List.mem_range]; omega
  have hjc : ((j0.toNat : Nat) : Int) = j0 := by omega
  have hic : ((i0.toNat : Nat) : Int) = i0 := by omega
  refine foldl_reaches_once P Q _ _ (List.nodup_range _) j0.toNat hj0' ?_ ?_ ?_ s hs
  · intro j hj hne s hs
    obtain ⟨g0, g1⟩ := mem_range_toNat _ _ hj
    refine foldl_invariant P _ _ (fun i hi s hs => ?_) s hs
    obtain ⟨h0, h1⟩ := mem_range_toNat _ _ hi
    exact hP _ _ h0 h1 g0 g1 (Or.inr (by omega)) s hs
  · intro s hs
    refine foldl_reaches_once P Q _ _ (List.nodup_range _) i0.toNat hi0' ?_ ?_ ?_ s hs
    · intro i hi hne s hs
      obtain ⟨h0, h1⟩ := mem_range_toNat _ _ hi
      exact hP _ _ h0 h1 (by omega) (by omega) (Or.inl (by omega)) s hs
    · intro s hs
      rw [hjc, hic]
      exact hstep s hs
    · intro i hi hne s hq
      obtain ⟨h0, h1⟩ := mem_range_toNat _ _ hi
      exact hQ _ _ h0 h1 (by omega) (by omega) (Or.inl (by omega)) s hq
  · intro j hj hne s hq
    obtain ⟨g0, g1⟩ := mem_range_toNat _ _ hj
    refine foldl_invariant Q _ _ (fun i hi s hq => ?_) s hq
    obtain ⟨h0, h1⟩ := mem_range_toNat _ _ hi
    exact hQ _ _ h0 h1 g0 g1 (Or.inr (by omega)) s hq

/-- What one call of the function object does, in closed form. -/
theorem draw_brush_pixel_eq {F R : Type} [LinearOrderedField F] (rand1f : R → F × R)
    (sqrt : F → F) (threshold : F) (i j : Int) (state : trace_state F R) :
    draw_brush_pixel rand1f sqrt threshold i j state =
      if ¬ state.render.contains ⟨i + state.brush.x, j + state.brush.y⟩ then state
      else if brush_value sqrt state.brush i j - (rand1f (state.rngs.pixels ⟨1, 1⟩)).1 <
          threshold then
        { state with rngs := state.rngs.set ⟨1, 1⟩ (rand1f (state.rngs.pixels ⟨1, 1⟩)).2 }
      else
        { state with
          rngs := state.rngs.set ⟨1, 1⟩ (rand1f (state.rngs.pixels ⟨1, 1⟩)).2,
          canvas := state.canvas.set ⟨i + state.brush.x, j + state.brush.y⟩ stroke } := by
  unfold draw_brush_pixel
  by_cases hin : state.render.contains ⟨i + state.brush.x, j + state.brush.y⟩
  · have hguard : ¬ (i + state.brush.x < 0 ∨ i + state.brush.x > state.render.width - 1 ∨
        j + state.brush.y < 0 ∨ j + state.brush.y > state.render.height - 1) := by
      simp only [image.contains] at hin
      omega
    simp only [hguard, if_false, hin, not_true_eq_false]
    rfl
  · have hguard : i + state.brush.x < 0 ∨ i + state.brush.x > state.render.width - 1 ∨
        j + state.brush.y < 0 ∨ j + state.brush.y > state.render.height - 1 := by
      simp only [image.contains] at hin
      omega
    simp only [hguard, if_true, hin, not_false_eq_true]

theorem draw_brush_pixel_frame {F R : Type} [LinearOrderedField F] (rand1f : R → F × R)
    (sqrt : F → F) (threshold : F) (i j : Int) (s : trace_state F R) :
    (draw_brush_pixel rand1f sqrt threshold i j s).render = s.render ∧
    (draw_brush_pixel rand1f sqrt threshold i j s).brush = s.brush ∧
    (draw_brush_pixel rand1f sqrt threshold i j s).controller = s.controller ∧
    (draw_brush_pixel rand1f sqrt threshold i j s).canvas.extent = s.canvas.extent ∧
    ∀ p, (draw_brush_pixel rand1f sqrt threshold i j s).canvas.pixels p = s.canvas.pixels p ∨
      (p = ⟨i + s.brush.x, j + s.brush.y⟩ ∧ s.render.contains p ∧
        (draw_brush_pixel rand1f sqrt threshold i j s).canvas.pixels p = stroke) := by
  rw [draw_brush_pixel_eq]
  by_cases hin : s.render.contains ⟨i + s.brush.x, j + s.brush.y⟩
  · by_cases hlt : brush_value sqrt s.brush i j - (rand1f (s.rngs.pixels ⟨1, 1⟩)).1 < threshold
    · simp [hin, hlt]
    · simp only [hin, hlt, not_true_eq_false, if_false, image.set, true_and]
      intro p
      by_cases hp : p = ⟨i + s.brush.x, j + s.brush.y⟩
      · right
        subst hp
        simp [hin]
      · left
        simp [hp]
  · simp [hin]

/-- C6. `draw_brush` leaves the accumulation buffer `render` and the dimensions of
the canvas as they are, for every render state, brush rectangle and threshold.  A
canvas pixel whose value it changes lies in the brush rectangle and passes the
bounds test of line 216, which is made against the dimensions of `render`; on a
render state as the data model describes it (canvas and accumulation buffer of
the same resolution) those are the bounds of the canvas itself, so every pixel
written lies inside the brush rectangle and inside the canvas, and every other
canvas pixel is unchanged.  The canvas is a total pixel function here, so a write
at a coordinate outside the bounds would show as a change there for a suitable
initial content: there is none. -/
theorem draw_brush_writes_in_bounds {F R : Type} [LinearOrderedField F]
    (rand1f : R → F × R) (sqrt : F → F) (state : trace_state F R) (threshold : F) :
    (draw_brush rand1f sqrt state threshold).render = state.render ∧
    (draw_brush rand1f sqrt state threshold).canvas.extent = state.canvas.extent ∧
    (∀ p, (draw_brush rand1f sqrt state threshold).canvas.pixels p ≠ state.canvas.pixels p →
      state.brush.covers p ∧ state.render.contains p) ∧
    (state.same_resolution →
      ∀ p, (draw_brush rand1f sqrt state threshold).canvas.pixels p ≠ state.canvas.pixels p →
        state.brush.covers p ∧ state.canvas.contains p) := by
  have hinv := parallel_for_invariant
    (fun s : trace_state F R => s.render = state.render ∧ s.brush = state.brush ∧
      s.canvas.extent = state.canvas.extent ∧
      ∀ p, s.canvas.pixels p ≠ state.canvas.pixels p →
        state.brush.covers p ∧ state.render.contains p)
    state.brush.w state.brush.h (draw_brush_pixel rand1f sqrt threshold)
    (fun i j hi0 hi1 hj0 hj1 s hs => by
      obtain ⟨hr, hb, he, hpix⟩ := hs
      obtain ⟨fr, fb, _, fe, fpix⟩ := draw_brush_pixel_frame rand1f sqrt threshold i j s
      refine ⟨fr.trans hr, fb.trans hb, fe.trans he, ?_⟩
      intro p hp
      rcases fpix p with h | ⟨h1, h2, _⟩
      · rw [h] at hp
        exact hpix p hp
      · rw [hr] at h2
        refine ⟨?_, h2⟩
        subst h1
        rw [hb]
        simp only [brush.covers]
        omega)
    state ⟨rfl, rfl, rfl, fun p hp => absurd rfl hp⟩
  obtain ⟨hr, _, he, hpix⟩ := hinv
  refine ⟨hr, he, hpix, ?_⟩
  intro hres p hp
  obtain ⟨h1, h2⟩ := hpix p hp
  refine ⟨h1, ?_⟩
  simp only [image.contains, image.width, image.height] at h2 ⊢
  rw [trace_state.same_resolution] at hres
  rw [hres]
  exact h2

/-- C6 at a brush that overlaps the top left corner of a 100x100 canvas. -/
theorem draw_brush_writes_in_bounds_witness :
    corner_state.same_resolution ∧
    ∀ p, (draw_brush half_rand1f sqrt_rat corner_state 0).canvas.pixels p ≠
        corner_state.canvas.pixels p →
      corner_state.brush.covers p ∧ corner_state.canvas.contains p :=
  ⟨rfl, (draw_brush_writes_in_bounds half_rand1f sqrt_rat corner_state 0).2.2.2 rfl⟩

theorem clamp_bounds {F : Type} [LinearOrderedField F] (a : F) :
    0 ≤ clamp a 0 1 ∧ clamp a 0 1 ≤ 1 := by
  unfold clamp
  exact ⟨le_min (le_max_right _ _) zero_le_one, min_le_right _ _⟩

theorem clamp_mono {F : Type} [LinearOrderedField F] (a b : F) (h : a ≤ b) :
    clamp a 0 1 ≤ clamp b 0 1 := by
  unfold clamp
  exact min_le_min (max_le_max h le_rfl) le_rfl

theorem clamp_of_nonpos {F : Type} [LinearOrderedField F] (a : F) (h : a ≤ 0) :
    clamp a 0 1 = 0 := by
  unfold clamp
  rw [max_eq_right h]
  exact min_eq_left zero_le_one

/-- The canvas pixel of a cell of the brush rectangle after the whole of
`draw_brush`: it is decided by the one call made at that cell, with the value drawn
from the generator in the state `g` it has at that moment. -/
theorem draw_brush_pixel_outcome {F R : Type} [LinearOrderedField F] (rand1f : R → F × R)
    (sqrt : F → F) (threshold : F) (i j : Int) (state : trace_state F R)
    (hin : state.render.contains ⟨i + state.brush.x, j + state.brush.y⟩)
    (hi : 0 ≤ i ∧ i < state.brush.w) (hj : 0 ≤ j ∧ j < state.brush.h) :
    ∃ g : R,
      (threshold ≤ brush_value sqrt state.brush i j - (rand1f g).1 →
        (draw_brush rand1f sqrt state threshold).canvas.pixels
          ⟨i + state.brush.x, j + state.brush.y⟩ = stroke) ∧
      (brush_value sqrt state.brush i j - (rand1f g).1 < threshold →
        (draw_brush rand1f sqrt state threshold).canvas.pixels
          ⟨i + state.brush.x, j + state.brush.y⟩ =
            state.canvas.pixels ⟨i + state.brush.x, j + state.brush.y⟩) := by
  have key := parallel_for_reaches_once
    (fun s : trace_state F R => s.brush = state.brush ∧ s.render = state.render ∧
      s.canvas.pixels ⟨i + state.brush.x, j + state.brush.y⟩ =
        state.canvas.pixels ⟨i + state.brush.x, j + state.brush.y⟩)
    (fun s : trace_state F R => s.brush = state.brush ∧ ∃ g : R,
      (threshold ≤ brush_value sqrt state.brush i j - (rand1f g).1 →
        s.canvas.pixels ⟨i + state.brush.x, j + state.brush.y⟩ = stroke) ∧
      (brush_value sqrt state.brush i j - (rand1f g).1 < threshold →
        s.canvas.pixels ⟨i + state.brush.x, j + state.brush.y⟩ =
          state.canvas.pixels ⟨i + state.brush.x, j + state.brush.y⟩))
    state.brush.w state.brush.h (draw_brush_pixel rand1f sqrt threshold) i j hi hj
    ?_ ?_ ?_ state ⟨rfl, rfl, rfl⟩
  · exact key.2
  · intro i' j' _ _ _ _ hne s hs
    obtain ⟨hb, hr, hp⟩ := hs
    obtain ⟨fr, fb, _, _, fpix⟩ := draw_brush_pixel_frame rand1f sqrt threshold i' j' s
    refine ⟨fb.trans hb, fr.trans hr, ?_⟩
    rcases fpix ⟨i + state.brush.x, j + state.brush.y⟩ with h | ⟨h, _, _⟩
    · rw [h]; exact hp
    · exfalso
      rw [hb] at h
      simp only [vec2i.mk.injEq] at h
      omega
  · intro s hs
    obtain ⟨hb, hr, hp⟩ := hs
    obtain ⟨_, fb, _, _, _⟩ := draw_brush_pixel_frame rand1f sqrt threshold i j s
    refine ⟨fb.trans hb, s.rngs.pixels ⟨1, 1⟩, ?_, ?_⟩
    · intro hge
      rw [draw_brush_pixel_eq, hb, hr]
      simp [hin, not_lt.mpr hge, image.set]
    · intro hlt
      rw [draw_brush_pixel_eq, hb, hr]
      simp [hin, hlt, hp]
  · intro i' j' _ _ _ _ hne s hq
    obtain ⟨hb, g, hq1, hq2⟩ := hq
    obtain ⟨_, fb, _, _, fpix⟩ := draw_brush_pixel_frame rand1f sqrt threshold i' j' s
    refine ⟨fb.trans hb, g, ?_, ?_⟩
    · intro hge
      rcases fpix ⟨i + state.brush.x, j + state.brush.y⟩ with h | ⟨_, _, h⟩
      · rw [h]; exact hq1 hge
      · exact h
    · intro hlt
      rcases fpix ⟨i + state.brush.x, j + state.brush.y⟩ with h | ⟨h, _, _⟩
      · rw [h]; exact hq2 hlt
      · exfalso
        rw [hb] at h
        simp only [vec2i.mk.injEq] at h
        omega

/-- C7. The function object of `draw_brush` at a cell `(i, j)` whose pixel
`p = (i + x, j + y)` passes the bounds test, for a brush of width `w > 0`.  The
local `dist` is the square root of the squared Euclidean distance between `p` and
the brush centre (origin plus the integer halves of the size); the local `value`
is `clamp(1 - 2 * dist / w, 0, 1)`, lies in `[0, 1]`, is not larger at a cell
whose `dist` is larger, and is 0 when `dist >= w / 2`.  With `r` the value drawn
from the generator, the call stores the stroke colour `(1, 0, 0, 1)` at `p` when
`value - r >= threshold`, and leaves the canvas as it is otherwise.  For a cell of
the brush rectangle the same holds of the whole of `draw_brush`, with `r` drawn in
the state `g` of the generator when the cell is reached: afterwards `p` holds the
stroke colour when `value - r >= threshold` and its former value otherwise.  Float
arithmetic is exact here (`F` is an ordered field). -/
theorem draw_brush_pixel_falloff {F R : Type} [LinearOrderedField F] (rand1f : R → F × R)
    (sqrt : F → F) (threshold : F) (i j : Int) (state : trace_state F R)
    (hw : 0 < state.brush.w)
    (hin : state.render.contains ⟨i + state.brush.x, j + state.brush.y⟩) :
    brush_dist sqrt state.brush i j =
      sqrt ((((i + state.brush.x - state.brush.center.x : Int) : F)) ^ 2 +
            (((j + state.brush.y - state.brush.center.y : Int) : F)) ^ 2) ∧
    brush_value sqrt state.brush i j =
      clamp (1 - 2 * brush_dist sqrt state.brush i j / (state.brush.w : F)) 0 1 ∧
    0 ≤ brush_value sqrt state.brush i j ∧ brush_value sqrt state.brush i j ≤ 1 ∧
    (∀ i' j', brush_dist sqrt state.brush i j ≤ brush_dist sqrt state.brush i' j' →
      brush_value sqrt state.brush i' j' ≤ brush_value sqrt state.brush i j) ∧
    ((state.brush.w : F) / 2 ≤ brush_dist sqrt state.brush i j →
      brush_value sqrt state.brush i j = 0) ∧
    (threshold ≤ brush_value sqrt state.brush i j - (rand1f (state.rngs.pixels ⟨1, 1⟩)).1 →
      (draw_brush_pixel rand1f sqrt threshold i j state).canvas =
        state.canvas.set ⟨i + state.brush.x, j + state.brush.y⟩ stroke) ∧
    (brush_value sqrt state.brush i j - (rand1f (state.rngs.pixels ⟨1, 1⟩)).1 < threshold →
      (draw_brush_pixel rand1f sqrt threshold i j state).canvas = state.canvas) ∧
    (0 ≤ i ∧ i < state.brush.w → 0 ≤ j ∧ j < state.brush.h →
      ∃ g : R,
        (threshold ≤ brush_value sqrt state.brush i j - (rand1f g).1 →
          (draw_brush rand1f sqrt state threshold).canvas.pixels
            ⟨i + state.brush.x, j + state.brush.y⟩ = stroke) ∧
        (brush_value sqrt state.brush i j - (rand1f g).1 < threshold →
          (draw_brush rand1f sqrt state threshold).canvas.pixels
            ⟨i + state.brush.x, j + state.brush.y⟩ =
              state.canvas.pixels ⟨i + state.brush.x, j + state.brush.y⟩)) := by
  have hwF : (0 : F) < (state.brush.w : F) := by exact_mod_cast hw
  refine ⟨?_, ?_, (clamp_bounds _).1, (clamp_bounds _).2, ?_, ?_, ?_, ?_,
    fun hi hj => draw_brush_pixel_outcome rand1f sqrt threshold i j state hin hi hj⟩
  · simp only [brush_dist, distance, brush.center]
    congr 1
    push_cast
    ring
  · simp only [brush_value]
    congr 1
    ring
  · intro i' j' hd
    simp only [brush_value]
    apply clamp_mono
    have := div_le_div_of_nonneg_right hd hwF.le
    linarith
  · intro hd
    simp only [brush_value]
    apply clamp_of_nonpos
    have h1 : (1 : F) / 2 ≤ brush_dist sqrt state.brush i j / (state.brush.w : F) := by
      rw [le_div_iff₀ hwF]
      linarith
    linarith
  · intro hge
    rw [draw_brush_pixel_eq]
    simp [hin, not_lt.mpr hge]
  · intro hlt
    rw [draw_brush_pixel_eq]
    simp [hin, hlt]

theorem brush_dist_center {F : Type} [LinearOrderedField F] (sqrt : F → F) (b : brush)
    (hsqrt : sqrt 0 = 0) : brush_dist sqrt b (Int.tdiv b.w 2) (Int.tdiv b.h 2) = 0 := by
  simp only [brush_dist, distance]
  rw [← hsqrt]
  congr 1
  push_cast
  ring

theorem brush_value_center {F : Type} [LinearOrderedField F] (sqrt : F → F) (b : brush)
    (hsqrt : sqrt 0 = 0) : brush_value sqrt b (Int.tdiv b.w 2) (Int.tdiv b.h 2) = 1 := by
  simp only [brush_value, brush_dist_center sqrt b hsqrt, clamp]
  simp

/-- C7 at the centre cell of a 10x10 brush on a 100x100 canvas, threshold 0, with
a generator that draws 1/2: the falloff is within `[0, 1]`, `1 - 1/2 >= 0`, and the
call stores the stroke colour at pixel (50, 50). -/
theorem draw_brush_pixel_falloff_witness :
    (0 : Int) < center_state.brush.w ∧
    center_state.render.contains ⟨5 + center_state.brush.x, 5 + center_state.brush.y⟩ ∧
    (0 : ℚ) ≤ brush_value sqrt_rat center_state.brush 5 5 ∧
    brush_value sqrt_rat center_state.brush 5 5 ≤ 1 ∧
    (0 : ℚ) ≤ brush_value sqrt_rat center_state.brush 5 5 -
      (half_rand1f (center_state.rngs.pixels ⟨1, 1⟩)).1 ∧
    (draw_brush_pixel half_rand1f sqrt_rat 0 5 5 center_state).canvas =
      center_state.canvas.set ⟨5 + center_state.brush.x, 5 + center_state.brush.y⟩ stroke :=
  have hv : brush_value sqrt_rat center_state.brush 5 5 = 1 :=
    brush_value_center sqrt_rat center_state.brush (by simp [sqrt_rat])
  have hge : (0 : ℚ) ≤ brush_value sqrt_rat center_state.brush 5 5 -
      (half_rand1f (center_state.rngs.pixels ⟨1, 1⟩)).1 := by
    rw [hv]; norm_num [half_rand1f]
  ⟨by decide, by decide,
    (draw_brush_pixel_falloff half_rand1f sqrt_rat 0 5 5 center_state (by decide)
      (by decide)).2.2.1,
    (draw_brush_pixel_falloff half_rand1f sqrt_rat 0 5 5 center_state (by decide)
      (by decide)).2.2.2.1,
    hge,
    (draw_brush_pixel_falloff half_rand1f sqrt_rat 0 5 5 center_state (by decide)
      (by decide)).2.2.2.2.2.2.1 hge⟩

/-- C8. The brush has `w >= 1`, `h >= 1` and its centre pixel `(x + w/2, y + h/2)`
(integer halves) is inside the canvas, which has the resolution of the
accumulation buffer; the threshold is at most 0, the square root of 0 is 0 and the
generator draws values in `[0, 1)`.  Then at the centre cell the distance is 0 and
the falloff is exactly 1, `1 - r >= threshold` for every `r` in `[0, 1)`, and after
`draw_brush` the centre pixel of the canvas holds the stroke colour. -/
theorem draw_brush_paints_center {F R : Type} [LinearOrderedField F] (rand1f : R → F × R)
    (sqrt : F → F) (state : trace_state F R) (threshold : F)
    (hw : 1 ≤ state.brush.w) (hh : 1 ≤ state.brush.h)
    (hin : state.canvas.contains state.brush.center) (hres : state.same_resolution)
    (ht : threshold ≤ 0) (hsqrt : sqrt 0 = 0)
    (hrand : ∀ g, 0 ≤ (rand1f g).1 ∧ (rand1f g).1 < 1) :
    brush_dist sqrt state.brush (Int.tdiv state.brush.w 2) (Int.tdiv state.brush.h 2) = 0 ∧
    brush_value sqrt state.brush (Int.tdiv state.brush.w 2) (Int.tdiv state.brush.h 2) = 1 ∧
    (∀ r : F, 0 ≤ r → r < 1 → threshold ≤ 1 - r) ∧
    (draw_brush rand1f sqrt state threshold).canvas.pixels state.brush.center = stroke := by
  have hge : ∀ r : F, 0 ≤ r → r < 1 → threshold ≤ 1 - r := by
    intro r _ hr
    linarith
  refine ⟨brush_dist_center sqrt _ hsqrt, brush_value_center sqrt _ hsqrt, hge, ?_⟩
  have hi0 : 0 ≤ Int.tdiv state.brush.w 2 ∧ Int.tdiv state.brush.w 2 < state.brush.w := by
    rw [Int.tdiv_eq_ediv (by omega) (by omega)]
    omega
  have hj0 : 0 ≤ Int.tdiv state.brush.h 2 ∧ Int.tdiv state.brush.h 2 < state.brush.h := by
    rw [Int.tdiv_eq_ediv (by omega) (by omega)]
    omega
  have hin' : state.render.contains state.brush.center := by
    simp only [image.contains, image.width, image.height] at hin ⊢
    rw [trace_state.same_resolution] at hres
    rw [← hres]
    exact hin
  refine parallel_for_reaches
    (fun s : trace_state F R => s.render = state.render ∧ s.brush = state.brush)
    (fun s => s.canvas.pixels state.brush.center = stroke)
    state.brush.w state.brush.h (draw_brush_pixel rand1f sqrt threshold)
    (Int.tdiv state.brush.w 2) (Int.tdiv state.brush.h 2) hi0 hj0 ?_ ?_ ?_ state ⟨rfl, rfl⟩
  · intro i j _ _ _ _ s hs
    obtain ⟨fr, fb, _, _, _⟩ := draw_brush_pixel_frame rand1f sqrt threshold i j s
    exact ⟨fr.trans hs.1, fb.trans hs.2⟩
  · intro s hs
    obtain ⟨hr, hb⟩ := hs
    have hc : (⟨Int.tdiv state.brush.w 2 + s.brush.x, Int.tdiv state.brush.h 2 + s.brush.y⟩ :
        vec2i) = state.brush.center := by
      rw [hb]
      simp only [brush.center, vec2i.mk.injEq]
      omega
    have hnot : ¬ (brush_value sqrt s.brush (Int.tdiv state.brush.w 2)
        (Int.tdiv state.brush.h 2) - (rand1f (s.rngs.pixels ⟨1, 1⟩)).1 < threshold) := by
      rw [hb, brush_value_center sqrt _ hsqrt]
      obtain ⟨h0, h1⟩ := hrand (s.rngs.pixels ⟨1, 1⟩)
      exact not_lt.mpr (hge _ h0 h1)
    rw [draw_brush_pixel_eq, hc, hr]
    simp [hin', hnot, image.set]
  · intro i j _ _ _ _ s _ hq
    obtain ⟨_, _, _, _, fpix⟩ := draw_brush_pixel_frame rand1f sqrt threshold i j s
    rcases fpix state.brush.center with h | ⟨_, _, h⟩
    · rw [h]; exact hq
    · exact h

/-- C8 at the scenario of the specification: centre (50, 50), brush 10x10,
threshold 0, canvas 100x100. -/
theorem draw_brush_paints_center_witness :
    (1 : Int) ≤ center_state.brush.w ∧ (1 : Int) ≤ center_state.brush.h ∧
    center_state.brush.center = ⟨50, 50⟩ ∧
    center_state.canvas.contains center_state.brush.center ∧
    center_state.same_resolution ∧ (0 : ℚ) ≤ 0 ∧ sqrt_rat 0 = 0 ∧
    (∀ g, 0 ≤ (half_rand1f g).1 ∧ (half_rand1f g).1 < 1) ∧
    (draw_brush half_rand1f sqrt_rat center_state 0).canvas.pixels
      center_state.brush.center = stroke :=
  ⟨by decide, by decide, by decide, by decide, rfl, le_refl 0, by simp [sqrt_rat],
    fun g => by norm_num [half_rand1f],
    (draw_brush_paints_center half_rand1f sqrt_rat center_state 0 (by decide) (by decide)
      (by decide) rfl (le_refl 0) (by simp [sqrt_rat])
      (fun g => by norm_num [half_rand1f])).2.2.2⟩

/-! ### The callbacks -/

theorem started_append (a b : List tracer_call) : started (a ++ b) = started a ++ started b := by
  induction a with
  | nil => rfl
  | cons c a ih => cases c <;> simp [started, ih]

/-- C9, the code at an edit of the parameters: the update callback for "render" or
"canvas" with non-null `uiparams` calls `trace_stop`, stores the new parameters,
and calls `trace_image` once with `samples = 1` and the resolution divided by the
preview ratio.  It makes no call of `trace_start`: when it returns the controller
is Idle, not Running on the new parameters. -/
theorem update_callback_does_not_restart {F R : Type} [LinearOrderedField F] [FloorRing F]
    (lib : library F R) (ui : view_params) (input : gui_input F) (v : view_state F R) :
    (update_callback lib "render" (some ui) input v).state.controller = .idle ∧
    (update_callback lib "render" (some ui) input v).params = ui ∧
    (update_callback lib "render" (some ui) input v).calls =
      v.calls ++ [tracer_call.stop, tracer_call.image v.active
        { ui with resolution := Int.tdiv ui.resolution ui.pratio, samples := 1 }] ∧
    started (update_callback lib "render" (some ui) input v).calls = started v.calls ∧
    update_callback lib "canvas" (some ui) input v =
      update_callback lib "render" (some ui) input v := by
  simp [update_callback, trace_stop, view_state.active, started_append, started]

/-! ### The progress callback and the conversion result -/

/-- The conversion result in closed form: it is decided by the lookups alone. -/
theorem init_scene_outcome {F σ : Type} (mem : sceneio_memory F) (scene : trace_scene F)
    (ioscene : sceneio_scene) (iocamera : Option Nat) (cb : Option (progress_callback σ))
    (obs : σ) :
    (convertible mem scene ioscene ∧
      ∃ c, map_at (camera_table scene ioscene) iocamera = some c ∧
        (init_scene mem scene ioscene iocamera cb obs).outcome =
          some (converted_scene mem scene ioscene, c)) ∨
    ((¬ convertible mem scene ioscene ∨
        map_at (camera_table scene ioscene) iocamera = none) ∧
      (init_scene mem scene ioscene iocamera cb obs).outcome = none) := by
  by_cases hconv : convertible mem scene ioscene
  · cases hc : map_at (camera_table scene ioscene) iocamera with
    | none =>
      obtain ⟨msgs, _, hthrow⟩ :=
        init_scene_throws mem scene ioscene iocamera cb obs (Or.inr hc)
      exact Or.inr ⟨Or.inr rfl, by rw [hthrow]; rfl⟩
    | some c =>
      refine Or.inl ⟨hconv, c, rfl, ?_⟩
      rw [init_scene_returns mem scene ioscene iocamera cb obs hconv c hc]
      rfl
  · obtain ⟨msgs, _, hthrow⟩ :=
      init_scene_throws mem scene ioscene iocamera cb obs (Or.inl hconv)
    exact Or.inr ⟨Or.inl hconv, by rw [hthrow]; rfl⟩

/-- C11. For every authoring scene, render scene on entry and selected camera,
`init_scene` run with a progress callback (any callback, acting on any observer
state) and `init_scene` run without one have the same conversion result: both
return, with the same render scene and the same active camera, or both throw. -/
theorem init_scene_callback_independent {F σ τ : Type} (mem : sceneio_memory F)
    (scene : trace_scene F) (ioscene : sceneio_scene) (iocamera : Option Nat)
    (progress_cb : progress_callback σ) (obs : σ) (obs' : τ) :
    (init_scene mem scene ioscene iocamera (some progress_cb) obs).outcome =
      (init_scene mem scene ioscene iocamera (none : Option (progress_callback τ)) obs').outcome ∧
    ((init_scene mem scene ioscene iocamera (some progress_cb) obs).completed =
      (init_scene mem scene ioscene iocamera (none : Option (progress_callback τ))
        obs').completed) := by
  have key : (init_scene mem scene ioscene iocamera (some progress_cb) obs).outcome =
      (init_scene mem scene ioscene iocamera (none : Option (progress_callback τ))
        obs').outcome := by
    rcases init_scene_outcome mem scene ioscene iocamera (some progress_cb) obs with
      ⟨_, c, hc, h1⟩ | ⟨hbad, h1⟩
    · rcases init_scene_outcome mem scene ioscene iocamera
          (none : Option (progress_callback τ)) obs' with ⟨_, c', hc', h2⟩ | ⟨hbad, _⟩
      · rw [hc] at hc'
        injection hc' with hc'
        subst hc'
        rw [h1, h2]
      · rcases hbad with h | h
        · exact absurd ‹convertible mem scene ioscene› h
        · rw [hc] at h; cases h
    · rcases init_scene_outcome mem scene ioscene iocamera
          (none : Option (progress_callback τ)) obs' with ⟨hconv, c', hc', _⟩ | ⟨_, h2⟩
      · rcases hbad with h | h
        · exact absurd hconv h
        · rw [hc'] at h; cases h
      · rw [h1, h2]
  refine ⟨key, ?_⟩
  revert key
  cases init_scene mem scene ioscene iocamera (some progress_cb) obs <;>
    cases init_scene mem scene ioscene iocamera (none : Option (progress_callback τ)) obs' <;>
    simp [init_result.outcome, init_result.completed]

/-! ### `range` -/

theorem iterate_interval (n : Nat) (fuel : Nat) (hfuel : n ≤ fuel) (lo : Int) :
    iterate fuel { index := lo } { index := lo + n } =
      some ((List.range n).map (fun (k : Nat) => lo + (k : Int))) := by
  induction n generalizing fuel lo with
  | zero =>
    cases fuel <;> simp [iterate, range_iterator.ne]
  | succ n ih =>
    cases fuel with
    | zero => omega
    | succ fuel =>
      have hne : (lo != lo + ((n + 1 : Nat) : Int)) = true := by
        simp only [bne_iff_ne, ne_eq]
        omega
      have hnext : ({ index := lo + ((n + 1 : Nat) : Int) } : range_iterator) =
          { index := (lo + 1) + (n : Int) } := by
        congr 1
        push_cast
        omega
      simp only [iterate, range_iterator.ne, hne, if_true, range_iterator.next,
        range_iterator.deref]
      rw [hnext, ih fuel (by omega) (lo + 1)]
      simp only [Option.map_some', Option.some.injEq]
      rw [List.range_succ_eq_map]
      simp only [List.map_cons, List.map_map, Nat.cast_zero, add_zero, List.cons.injEq,
        true_and]
      apply List.map_congr_left
      intro k _
      simp only [Function.comp, Nat.cast_succ]
      omega

/-- What the code does when `min <= max`: whatever the step, the loop ends after
`max - min` passes and visits `min`, `min + 1`, ..., `max - 1`. -/
theorem for_range_visits (min max step : Int) (h : min ≤ max) (fuel : Nat)
    (hfuel : (max - min).toNat ≤ fuel) :
    for_range fuel (range min max step) =
      some ((List.range (max - min).toNat).map (fun (k : Nat) => min + (k : Int))) := by
  have hmax : max = min + ((max - min).toNat : Int) := by omega
  simp only [for_range, range, range_helper.begin_iterator, range_helper.end_iterator]
  conv_lhs => rw [hmax]
  exact iterate_interval _ fuel hfuel min

theorem iterate_never_ends (fuel : Nat) (lo hi : Int) (h : hi < lo) :
    iterate fuel { index := lo } { index := hi } = none := by
  induction fuel generalizing lo with
  | zero =>
    have hne : (lo != hi) = true := by
      simp only [bne_iff_ne, ne_eq]; omega
    simp [iterate, range_iterator.ne, hne]
  | succ fuel ih =>
    have hne : (lo != hi) = true := by
      simp only [bne_iff_ne, ne_eq]; omega
    simp [iterate, range_iterator.ne, hne, range_iterator.next, ih (lo + 1) (by omega)]

/-- What the code does when `min > max`, the index being an unbounded integer: the
test `index != end` never fails, and the loop does not end, however many passes it
is given.  (An index of a fixed width would go on until it overflows.) -/
theorem for_range_never_ends (min max step : Int) (h : max < min) (fuel : Nat) :
    for_range fuel (range min max step) = none := by
  simp only [for_range, range, range_helper.begin_iterator, range_helper.end_iterator]
  exact iterate_never_ends fuel min max h

/-- With step 1 and `min <= max` the code and Python's `range` agree. -/
theorem for_range_step_one (min max : Int) (h : min ≤ max) :
    for_range (max - min).toNat (range min max 1) = some (python_range min max 1) := by
  rw [for_range_visits min max 1 h _ le_rfl]
  simp [python_range]

/-- C12, the code at `range(0, 10, 2)` and at `range(3, 0, 1)`.  The loop over
`range(0, 10, 2)` visits 0, 1, 2, ..., 9, where Python's `range(0, 10, 2)` gives
0, 2, 4, 6, 8: the step is ignored.  The loop over `range(3, 0, 1)` is still
running after 1000 passes, where Python's `range(3, 0, 1)` gives no value. -/
theorem range_ignores_step :
    for_range 10 (range 0 10 2) = some [0, 1, 2, 3, 4, 5, 6, 7, 8, 9] ∧
    python_range 0 10 2 = [0, 2, 4, 6, 8] ∧
    for_range 10 (range 0 10 2) ≠ some (python_range 0 10 2) ∧
    for_range 1000 (range 3 0 1) = none ∧
    python_range 3 0 1 = [] := by
  refine ⟨by decide, by decide, by decide, for_range_never_ends 3 0 1 (by decide) 1000,
    by decide⟩

/-! ### The generator used by `draw_brush` -/

/-- The generator states after one call of the function object: when the pixel
passes the bounds test the generator stored for pixel (1, 1) has advanced, and no
other; the value drawn is its value (see `draw_brush_pixel_eq`). -/
theorem draw_brush_pixel_rngs {F R : Type} [LinearOrderedField F] (rand1f : R → F × R)
    (sqrt : F → F) (threshold : F) (i j : Int) (state : trace_state F R) :
    (draw_brush_pixel rand1f sqrt threshold i j state).rngs =
      if state.render.contains ⟨i + state.brush.x, j + state.brush.y⟩ then
        state.rngs.set ⟨1, 1⟩ (rand1f (state.rngs.pixels ⟨1, 1⟩)).2
      else state.rngs := by
  rw [draw_brush_pixel_eq]
  by_cases hin : state.render.contains ⟨i + state.brush.x, j + state.brush.y⟩
  · by_cases hlt : brush_value sqrt state.brush i j -
        (rand1f (state.rngs.pixels ⟨1, 1⟩)).1 < threshold
    · simp [hin, hlt]
    · simp [hin, hlt]
  · simp [hin]

/-- C13, the code at the centre cell (5, 5) of a 10x10 brush whose pixel (50, 50)
is inside 100x100 buffers, threshold 1/2, where the generator of pixel (1, 1) would
draw 9/10 and the generator of pixel (50, 50) would draw 0.  The falloff is 1.
With the value of its own generator the pixel would be painted (`1 - 0 >= 1/2`);
the call leaves it unpainted, because the value used is the 9/10 of the generator
of pixel (1, 1); after the call the generator of pixel (50, 50) is where it was
and the generator of pixel (1, 1) has advanced from 9 to 10. -/
theorem draw_brush_pixel_uses_rng_of_pixel_one_one :
    marked_state.render.contains ⟨5 + marked_state.brush.x, 5 + marked_state.brush.y⟩ ∧
    (⟨5 + marked_state.brush.x, 5 + marked_state.brush.y⟩ : vec2i) = ⟨50, 50⟩ ∧
    brush_value sqrt_rat marked_state.brush 5 5 = 1 ∧
    (digit_rand1f (marked_state.rngs.pixels ⟨50, 50⟩)).1 = 0 ∧
    (digit_rand1f (marked_state.rngs.pixels ⟨1, 1⟩)).1 = 9 / 10 ∧
    (1 / 2 : ℚ) ≤ brush_value sqrt_rat marked_state.brush 5 5 -
      (digit_rand1f (marked_state.rngs.pixels ⟨50, 50⟩)).1 ∧
    (draw_brush_pixel digit_rand1f sqrt_rat (1 / 2) 5 5 marked_state).canvas.pixels ⟨50, 50⟩ =
      marked_state.canvas.pixels ⟨50, 50⟩ ∧
    marked_state.canvas.pixels ⟨50, 50⟩ ≠ stroke ∧
    (draw_brush_pixel digit_rand1f sqrt_rat (1 / 2) 5 5 marked_state).rngs.pixels ⟨50, 50⟩ =
      marked_state.rngs.pixels ⟨50, 50⟩ ∧
    marked_state.rngs.pixels ⟨1, 1⟩ = 9 ∧
    (draw_brush_pixel digit_rand1f sqrt_rat (1 / 2) 5 5 marked_state).rngs.pixels ⟨1, 1⟩ =
      10 := by
  have hin : marked_state.render.contains
      ⟨5 + marked_state.brush.x, 5 + marked_state.brush.y⟩ := by decide
  have hv : brush_value sqrt_rat marked_state.brush 5 5 = 1 :=
    brush_value_center sqrt_rat marked_state.brush (by simp [sqrt_rat])
  have h50 : (digit_rand1f (marked_state.rngs.pixels ⟨50, 50⟩)).1 = 0 := by
    simp [digit_rand1f, marked_state]
  have h11 : (digit_rand1f (marked_state.rngs.pixels ⟨1, 1⟩)).1 = 9 / 10 := by
    simp [digit_rand1f, marked_state]
  have hlt : brush_value sqrt_rat marked_state.brush 5 5 -
      (digit_rand1f (marked_state.rngs.pixels ⟨1, 1⟩)).1 < 1 / 2 := by
    rw [hv, h11]; norm_num
  refine ⟨hin, by decide, hv, h50, h11, by rw [hv, h50]; norm_num, ?_, ?_, ?_, ?_, ?_⟩
  · rw [draw_brush_pixel_eq, if_neg (not_not.mpr hin), if_pos hlt]
  · simp [marked_state, black_image, stroke]
  · rw [draw_brush_pixel_rngs, if_pos hin]
    simp [image.set]
  · simp [marked_state]
  · rw [draw_brush_pixel_rngs, if_pos hin]
    simp [image.set, digit_rand1f, marked_state]

end zizou
